import Mathlib

/-!
Verification of the pgbackup backup-lifecycle engine.

A shallow embedding of `pgbackup/backup.py`: filename encoding/decoding,
label normalisation, the promotion decision and the expiration sweep,
together with theorems settling the specification's claims.

Python strings are modelled as `String` (a wrapper around `List Char`;
Python compares strings by code points, exactly as `List Char` lexicographic
order over `Char`).  Exceptions are modelled with `Except`: `.error` is a
raised exception, and every embedded operation propagates errors exactly
where the Python code lets exceptions propagate.
-/

namespace Pgbackup

/-! ## Character-list utilities

These embed the Python primitives used by `backup.py`:
`str.split(sep)`, `sep.join(parts)`, `str.count`, `os.path.split` and
`os.path.join` (POSIX).  They are defined on `List Char` by structural
recursion so that every theorem witness can be evaluated by `decide`/`rfl`.
-/

/-- Python `s.split(sep)` for a one-character separator: splits at every
occurrence, keeping empty pieces; `"".split(sep) == [""]`. -/
def splitSep (sep : Char) : List Char → List (List Char)
  | [] => [[]]
  | c :: cs =>
    if c = sep then [] :: splitSep sep cs
    else
      match splitSep sep cs with
      | [] => [[c]]
      | r :: rs => (c :: r) :: rs

/-- Python `sep.join(parts)` for a one-character separator. -/
def joinSep (sep : Char) : List (List Char) → List Char
  | [] => []
  | [p] => p
  | p :: q :: ps => p ++ sep :: joinSep sep (q :: ps)

theorem splitSep_ne_nil (sep : Char) (l : List Char) : splitSep sep l ≠ [] := by
  induction l with
  | nil => simp [splitSep]
  | cons c cs ih =>
    simp only [splitSep]
    split
    · simp
    · split
      · simp
      · simp

theorem splitSep_append_sep (sep : Char) (p l : List Char) (hp : sep ∉ p) :
    splitSep sep (p ++ sep :: l) = p :: splitSep sep l := by
  induction p with
  | nil => simp [splitSep]
  | cons c cs ih =>
    have hc : c ≠ sep := fun h => hp (h ▸ List.mem_cons_self c cs)
    have hcs : sep ∉ cs := fun h => hp (List.mem_cons_of_mem c h)
    have hrec := ih hcs
    simp only [List.cons_append, splitSep, if_neg hc, List.append_eq, hrec]

theorem splitSep_no_sep (sep : Char) (p : List Char) (hp : sep ∉ p) :
    splitSep sep p = [p] := by
  induction p with
  | nil => rfl
  | cons c cs ih =>
    have hc : c ≠ sep := fun h => hp (h ▸ List.mem_cons_self c cs)
    have hcs : sep ∉ cs := fun h => hp (List.mem_cons_of_mem c h)
    simp only [splitSep, if_neg hc, ih hcs]

/-- Splitting a joined list recovers the parts when no part contains the
separator. -/
theorem splitSep_joinSep (sep : Char) :
    ∀ (parts : List (List Char)), parts ≠ [] →
      (∀ p ∈ parts, sep ∉ p) →
      splitSep sep (joinSep sep parts) = parts
  | [], h, _ => absurd rfl h
  | [p], _, hall => by
      simp only [joinSep]
      exact splitSep_no_sep sep p (hall p (by simp))
  | p :: q :: ps, _, hall => by
      simp only [joinSep]
      rw [splitSep_append_sep sep p _ (hall p (by simp))]
      rw [splitSep_joinSep sep (q :: ps) (by simp)
        (fun x hx => hall x (List.mem_cons_of_mem p hx))]

/-- With separator-free parts the joined list contains exactly
`parts.length - 1` separators (Python's `count` sanity check). -/
theorem count_joinSep (sep : Char) :
    ∀ (parts : List (List Char)), (∀ p ∈ parts, sep ∉ p) →
      (joinSep sep parts).count sep = parts.length - 1
  | [], _ => rfl
  | [p], hall => by
      simp only [joinSep, List.length_singleton]
      exact List.count_eq_zero.mpr (hall p (by simp))
  | p :: q :: ps, hall => by
      simp only [joinSep, List.count_append, List.count_cons]
      rw [List.count_eq_zero.mpr (hall p (by simp))]
      rw [count_joinSep sep (q :: ps) (fun x hx => hall x (by simp [hx]))]
      simp

/-- Boolean "is not a slash" (explicit to keep rewriting predictable). -/
def notSlash (c : Char) : Bool := if c = '/' then false else true

/-- The piece of a path after the last `'/'` (the whole path when it has
none): the `tail` of Python's `os.path.split`. -/
def baseChars (l : List Char) : List Char :=
  (l.reverse.takeWhile notSlash).reverse

/-- The `head` of Python's `os.path.split` (POSIX): everything before the
last `'/'`, with trailing slashes stripped unless it consists only of
slashes. -/
def dirChars (l : List Char) : List Char :=
  let t := baseChars l
  let h := l.take (l.length - t.length)
  if h.isEmpty || h.all (fun c => c = '/') then h
  else (h.reverse.dropWhile (fun c => c = '/')).reverse

/-- Python `os.path.join(d, f)` (POSIX) for a non-absolute `f`. -/
def posixJoinChars (d f : List Char) : List Char :=
  if d = [] then f
  else if d.getLast? = some '/' then d ++ f
  else d ++ '/' :: f

theorem takeWhile_notSlash_all (l : List Char) (h : '/' ∉ l) :
    l.takeWhile notSlash = l := by
  induction l with
  | nil => rfl
  | cons c cs ih =>
    have hcne : c ≠ '/' := fun hh => h (by rw [hh]; exact List.mem_cons_self _ _)
    have hc : notSlash c = true := by simp [notSlash, hcne]
    simp only [List.takeWhile, hc]
    rw [ih (fun hm => h (List.mem_cons_of_mem c hm))]

theorem takeWhile_notSlash_append (f g : List Char) (hf : '/' ∉ f) :
    List.takeWhile notSlash (f ++ '/' :: g) = f := by
  induction f with
  | nil =>
    rw [List.nil_append]
    simp [List.takeWhile, notSlash]
  | cons c cs ih =>
    have hcne : c ≠ '/' := fun hh => hf (by rw [hh]; exact List.mem_cons_self _ _)
    have hc : notSlash c = true := by simp [notSlash, hcne]
    rw [List.cons_append]
    simp only [List.takeWhile, hc]
    rw [ih (fun hm => hf (List.mem_cons_of_mem c hm))]

theorem baseChars_no_slash_self (f : List Char) (hf : '/' ∉ f) :
    baseChars f = f := by
  unfold baseChars
  rw [takeWhile_notSlash_all _ (by simpa using hf), List.reverse_reverse]

theorem baseChars_append (d f : List Char) (hf : '/' ∉ f) :
    baseChars (d ++ '/' :: f) = f := by
  unfold baseChars
  rw [List.reverse_append, List.reverse_cons, List.append_assoc]
  rw [List.singleton_append]
  rw [takeWhile_notSlash_append f.reverse d.reverse (by simpa using hf)]
  rw [List.reverse_reverse]

/-- The basename of a POSIX join is the joined file name. -/
theorem baseChars_posixJoin (d f : List Char) (hf : '/' ∉ f) :
    baseChars (posixJoinChars d f) = f := by
  unfold posixJoinChars
  split
  · exact baseChars_no_slash_self f hf
  · split
    · rename_i hd hlast
      have hne : d ≠ [] := hd
      have hgl : d.getLast hne = '/' := by
        have := List.getLast?_eq_getLast d hne
        rw [hlast] at this
        exact (Option.some_inj.mp this).symm
      conv_lhs => rw [← List.dropLast_append_getLast hne, hgl, List.append_assoc]
      simpa using baseChars_append d.dropLast f hf
    · exact baseChars_append d f hf

/-! ## Dates

`datetime.date` objects are modelled as triples of naturals with a validity
predicate (Python's constructor enforces it).  `strftime('%Y-%m-%d')` is the
zero-padded encoding the spec relies on; `strptime('%Y-%m-%d')` is modelled
after CPython's `_strptime` regexes: exactly four digits for `%Y`, one or
two digits for `%m`/`%d`, followed by `datetime.date` range validation.
The ISO calendar computation is transcribed from CPython's
`datetime.date.isocalendar`.
-/

/-- Python `datetime.date` leap-year rule. -/
def isLeap (y : Nat) : Bool := (y % 4 == 0 && y % 100 != 0) || (y % 400 == 0)

/-- Days in a month of the proleptic Gregorian calendar. -/
def daysInMonth (y m : Nat) : Nat :=
  if m = 2 then (if isLeap y then 29 else 28)
  else if m = 4 ∨ m = 6 ∨ m = 9 ∨ m = 11 then 30
  else 31

/-- Days in year `y` before the first of month `m`. -/
def daysBeforeMonth (y m : Nat) : Nat :=
  (List.range (m - 1)).foldl (fun a i => a + daysInMonth y (i + 1)) 0

/-- Days before January 1 of year `y` (proleptic Gregorian, year 1 based). -/
def daysBeforeYear (y : Nat) : Nat :=
  365 * (y - 1) + (y - 1) / 4 - (y - 1) / 100 + (y - 1) / 400

/-- CPython `_ymd2ord`: proleptic Gregorian ordinal (0001-01-01 is day 1). -/
def toOrdinal (y m d : Nat) : Int :=
  ((daysBeforeYear y + daysBeforeMonth y m + d : Nat) : Int)

/-- CPython `_isoweek1monday`: ordinal of the Monday starting ISO week 1 of
year `y`. -/
def isoweek1monday (y : Nat) : Int :=
  let firstday := toOrdinal y 1 1
  let firstweekday := (firstday + 6) % 7
  let week1monday := firstday - firstweekday
  if firstweekday > 3 then week1monday + 7 else week1monday

/-- The `(year, week)` part of CPython `datetime.date.isocalendar`. -/
def isocalendarYW (y m d : Nat) : Int × Int :=
  let today := toOrdinal y m d
  let week := Int.fdiv (today - isoweek1monday y) 7
  if week < 0 then
    ((y : Int) - 1, Int.fdiv (today - isoweek1monday (y - 1)) 7 + 1)
  else if week ≥ 52 then
    if today ≥ isoweek1monday (y + 1) then ((y : Int) + 1, 1)
    else ((y : Int), week + 1)
  else ((y : Int), week + 1)

/-- A Python `datetime.date` value. -/
structure PyDate where
  year : Nat
  month : Nat
  day : Nat
deriving Repr, DecidableEq

/-- The invariant `datetime.date` enforces at construction. -/
def PyDate.Valid (t : PyDate) : Prop :=
  1 ≤ t.year ∧ t.year ≤ 9999 ∧ 1 ≤ t.month ∧ t.month ≤ 12 ∧
    1 ≤ t.day ∧ t.day ≤ daysInMonth t.year t.month

instance (t : PyDate) : Decidable t.Valid := by
  unfold PyDate.Valid; infer_instance

/-- Fixed-width zero-padded decimal digits, most significant first. -/
def padDigits : Nat → Nat → List Char
  | 0, _ => []
  | k + 1, n => Nat.digitChar (n / 10 ^ k) :: padDigits k (n % 10 ^ k)

/-- `strftime('%Y-%m-%d')`: the zero-padded `YYYY-MM-DD` encoding. -/
def fmtDateChars (y m d : Nat) : List Char :=
  padDigits 4 y ++ '-' :: (padDigits 2 m ++ '-' :: padDigits 2 d)

def PyDate.strftime (t : PyDate) : String :=
  String.mk (fmtDateChars t.year t.month t.day)

/-- Numeric value of a digit string. -/
def digitsToNat (l : List Char) : Nat :=
  l.foldl (fun a c => a * 10 + (c.toNat - 48)) 0

/-- `datetime.datetime.strptime(s, '%Y-%m-%d')`, returning the date on
success: CPython matches `%Y` against exactly four digits and `%m`/`%d`
against one or two digits with values 1-12 / 1-31, then constructs the
`date`, which checks the day against the month length. -/
def parseDateChars (l : List Char) : Option (Nat × Nat × Nat) :=
  match splitSep '-' l with
  | [ys, ms, ds] =>
    if ys.length = 4 && ys.all Char.isDigit
        && (ms.length = 1 || ms.length = 2) && ms.all Char.isDigit
        && (ds.length = 1 || ds.length = 2) && ds.all Char.isDigit then
      let y := digitsToNat ys
      let m := digitsToNat ms
      let d := digitsToNat ds
      if 1 ≤ y && 1 ≤ m && m ≤ 12 && 1 ≤ d && d ≤ 31 && d ≤ daysInMonth y m
      then some (y, m, d)
      else none
    else none
  | _ => none

def parseDateStr (s : String) : Option (Nat × Nat × Nat) :=
  parseDateChars s.data

/-- Digit characters of a number below `10 ^ k` are digits. -/
theorem padDigits_all_digits : ∀ (k n : Nat), n < 10 ^ k →
    ∀ c ∈ padDigits k n, c.isDigit = true
  | 0, _, _, _, hc => absurd hc (List.not_mem_nil _)
  | k + 1, n, hn, c, hc => by
    simp only [padDigits, List.mem_cons] at hc
    rcases hc with hc | hc
    · have hq : n / 10 ^ k < 10 := by
        rw [Nat.div_lt_iff_lt_mul (Nat.pos_pow_of_pos k (by norm_num))]
        calc n < 10 ^ (k + 1) := hn
        _ = 10 * 10 ^ k := by ring
        _ ≤ 10 * 10 ^ k := le_rfl
      subst hc
      interval_cases h : (n / 10 ^ k) <;> decide
    · exact padDigits_all_digits k (n % 10 ^ k) (Nat.mod_lt _
        (Nat.pos_pow_of_pos k (by norm_num))) c hc

theorem padDigits_length (k n : Nat) : (padDigits k n).length = k := by
  induction k generalizing n with
  | zero => rfl
  | succ k ih => simp [padDigits, ih]

/-- Reading back fixed-width digits. -/
theorem digitsToNat_padDigits : ∀ (k n : Nat), n < 10 ^ k →
    digitsToNat (padDigits k n) = n := by
  have step : ∀ (l : List Char) (a : Nat),
      List.foldl (fun a c => a * 10 + (c.toNat - 48)) a l =
        a * 10 ^ l.length + digitsToNat l := by
    intro l
    induction l with
    | nil => intro a; simp [digitsToNat]
    | cons c cs ih =>
      intro a
      simp only [List.foldl_cons, List.length_cons, digitsToNat] at *
      rw [ih, ih (0 * 10 + (c.toNat - 48))]
      ring
  intro k n hn
  induction k generalizing n with
  | zero => interval_cases n; rfl
  | succ k ih =>
    have hq : (Nat.digitChar (n / 10 ^ k)).toNat - 48 = n / 10 ^ k := by
      have hqlt : n / 10 ^ k < 10 := by
        rw [Nat.div_lt_iff_lt_mul (Nat.pos_pow_of_pos k (by norm_num))]
        calc n < 10 ^ (k + 1) := hn
        _ = 10 * 10 ^ k := by ring
      interval_cases h : (n / 10 ^ k) <;> decide
    simp only [padDigits, digitsToNat, List.foldl_cons]
    rw [step, padDigits_length]
    rw [ih _ (Nat.mod_lt _ (Nat.pos_pow_of_pos k (by norm_num))),
      Nat.zero_mul, Nat.zero_add, hq, Nat.mul_comm]
    exact Nat.div_add_mod n (10 ^ k)

theorem daysInMonth_le_31 (y m : Nat) : daysInMonth y m ≤ 31 := by
  unfold daysInMonth
  split
  · split <;> omega
  · split <;> omega

theorem mem_fmtDateChars (y m d : Nat) (hy : y < 10 ^ 4) (hm : m < 10 ^ 2)
    (hd : d < 10 ^ 2) :
    ∀ c ∈ fmtDateChars y m d, c.isDigit = true ∨ c = '-' := by
  intro c hc
  simp only [fmtDateChars, List.mem_append, List.mem_cons] at hc
  rcases hc with hc | hc | hc
  · exact Or.inl (padDigits_all_digits 4 y hy c hc)
  · exact Or.inr hc
  · rcases hc with hc | hc
    · exact Or.inl (padDigits_all_digits 2 m hm c hc)
    · rcases hc with hc | hc
      · exact Or.inr hc
      · exact Or.inl (padDigits_all_digits 2 d hd c hc)

theorem fmtDateChars_no_mem (y m d : Nat) (hy : y < 10 ^ 4) (hm : m < 10 ^ 2)
    (hd : d < 10 ^ 2) (c : Char) (hdig : c.isDigit = false) (hne : c ≠ '-') :
    c ∉ fmtDateChars y m d := by
  intro hc
  rcases mem_fmtDateChars y m d hy hm hd c hc with h | h
  · rw [hdig] at h; cases h
  · exact hne h

/-- `strptime` inverts `strftime` on every valid date. -/
theorem parseDateChars_fmtDateChars (y m d : Nat)
    (h : 1 ≤ y ∧ y ≤ 9999 ∧ 1 ≤ m ∧ m ≤ 12 ∧ 1 ≤ d ∧ d ≤ daysInMonth y m) :
    parseDateChars (fmtDateChars y m d) = some (y, m, d) := by
  obtain ⟨hy1, hy2, hm1, hm2, hd1, hd2⟩ := h
  have hy : y < 10 ^ 4 := by norm_num; omega
  have hm : m < 10 ^ 2 := by norm_num; omega
  have hd : d < 10 ^ 2 := by
    have := daysInMonth_le_31 y m
    norm_num
    omega
  have hdash : ∀ n k, n < 10 ^ k → '-' ∉ padDigits k n := by
    intro n k hn hmem
    have := padDigits_all_digits k n hn '-' hmem
    simp [Char.isDigit] at this
  have hsplit : splitSep '-' (fmtDateChars y m d) =
      [padDigits 4 y, padDigits 2 m, padDigits 2 d] := by
    unfold fmtDateChars
    rw [splitSep_append_sep '-' _ _ (hdash y 4 hy)]
    rw [splitSep_append_sep '-' _ _ (hdash m 2 hm)]
    rw [splitSep_no_sep '-' _ (hdash d 2 hd)]
  unfold parseDateChars
  rw [hsplit]
  have hall : ∀ n k, n < 10 ^ k → (padDigits k n).all Char.isDigit = true := by
    intro n k hn
    rw [List.all_eq_true]
    exact fun c hc => padDigits_all_digits k n hn c hc
  simp only [padDigits_length, hall y 4 hy, hall m 2 hm, hall d 2 hd,
    digitsToNat_padDigits 4 y hy, digitsToNat_padDigits 2 m hm,
    digitsToNat_padDigits 2 d hd]
  have h31 : d ≤ 31 := le_trans hd2 (daysInMonth_le_31 y m)
  simp [hy1, hm1, hm2, hd1, h31, hd2]

theorem parseDateStr_strftime (t : PyDate) (h : t.Valid) :
    parseDateStr t.strftime = some (t.year, t.month, t.day) := by
  obtain ⟨h1, h2, h3, h4, h5, h6⟩ := h
  exact parseDateChars_fmtDateChars t.year t.month t.day ⟨h1, h2, h3, h4, h5, h6⟩

/-! ## Errors and the data model

Python exceptions are represented by `BErr`.  `SchemaCriteria` carries the
list the external schema resolver (`matching_schemas`, an out-of-scope SQL
collaborator) would return, as the `resolved` component.  `conn_info` dicts
always have the keys `hostname`/`port`/`username` (the constructor rejects
any other key), so they are modelled as a structure of optional strings.
-/

instance {ε α : Type} [DecidableEq ε] [DecidableEq α] : DecidableEq (Except ε α)
  | .error e, .error f =>
    if h : e = f then .isTrue (by rw [h]) else
      .isFalse (fun hh => by cases hh; exact h rfl)
  | .error _, .ok _ => .isFalse (fun hh => by cases hh)
  | .ok _, .error _ => .isFalse (fun hh => by cases hh)
  | .ok a, .ok b =>
    if h : a = b then .isTrue (by rw [h]) else
      .isFalse (fun hh => by cases hh; exact h rfl)

inductive BErr where
  | valueError (msg : String)
  | runtimeError (msg : String)
  | fileExistsError (path : String)
  | fileNotFoundError (path : String)
deriving Repr, DecidableEq

/-- The shapes a `schema_spec` argument can take: `None`, a single string,
a collection of names, or a `SchemaCriteria` object (whose
include/exclude patterns decide the label, and whose `matching_schemas`
result is the `resolved` parameter). -/
inductive SchemaSpec where
  | noneSpec : SchemaSpec
  | one (name : String) : SchemaSpec
  | many (names : List String) : SchemaSpec
  | criteria (incl excl : Option String) (resolved : List String) : SchemaSpec
deriving Repr, DecidableEq

/-- Python truthiness of an optional string. -/
def truthyOpt : Option String → Bool
  | none => false
  | some s => if s = "" then false else true

structure ConnInfo where
  hostname : Option String := none
  port : Option String := none
  username : Option String := none
deriving Repr, DecidableEq

/-- Boolean "is not a dot" (used for `str.partition('.')`). -/
def notDot (c : Char) : Bool := if c = '.' then false else true

/-- `hostname.partition('.')[0]` under the guard `'.' in hostname`. -/
def stripAtDot (s : String) : String :=
  if '.' ∈ s.data then String.mk (s.data.takeWhile notDot) else s

/-- `backup.hostname_label`; `ghn` is what `socket.gethostname()` returns. -/
def hostname_label (hostname : Option String) (ghn : String) : String :=
  let h1 := match hostname with
    | none => "localhost"
    | some s => if s = "" then "localhost" else s
  let h2 := if h1 = "127.0.0.1" ∨ h1 = "localhost" then
      (if ghn = "" then "localhost" else ghn)
    else h1
  stripAtDot h2

/-- `backup.port_label`. -/
def port_label (port : Option String) : String :=
  match port with
  | none => "5432"
  | some s => if s = "" then "5432" else s

/-- `backup.database_label` (`database` may be `None`, modelled as `""`;
both are falsy). -/
def database_label (database : String) : String :=
  if database = "" then "database_na" else database

/-- `backup.schema_label`, branch for branch from the source (`empty` is
tested first; the remaining cases are mutually exclusive, so the order of
the source's `elif` chain is preserved by this disjoint match). -/
def schema_label (spec : SchemaSpec) (empty : Bool) : Except BErr String :=
  match empty, spec with
  | true, _ => .ok "no_schemas"
  | false, .noneSpec => .ok "no_schemas"
  | false, .criteria incl excl _ =>
    match truthyOpt incl || truthyOpt excl with
    | true => .ok "selected_schemas"
    | false => .ok "all_schemas"
  | false, .one s => .ok s
  | false, .many [n] => .ok n
  | false, .many (_ :: _ :: _) => .ok "selected_schemas"
  | false, .many [] => .error (.valueError "Programmer brain overflow")

/-- The `schema_names` attribute computed in `Backup.__init__`. -/
def schema_names_of : SchemaSpec → List String
  | .criteria _ _ r => r
  | .noneSpec => []
  | .one s => [s]
  | .many l => l

def GLOBALS_SUFFIX : String := "sql"
def REGULAR_SUFFIX : String := "pg_dump_Fc"
def BACKUP_TYPES : List String := ["globals", "daily", "weekly", "monthly"]
def NUM_FILENAME_PARTS : Nat := 7

/-- `Backup.validate_backup_type`. -/
def validate_backup_type (t : String) : Except BErr Unit :=
  if t ∈ BACKUP_TYPES then .ok ()
  else .error (.valueError ("backup_type `" ++ t ++
    "` not in ('globals', 'daily', 'weekly', 'monthly')"))

/-- The identity attributes shared by both construction paths
(prospective construction and filename parsing). -/
structure BackupFields where
  backup_dir : String
  hostname_label : String
  port_label : String
  database_label : String
  schema_label : String
  date : String
  backup_type : String
deriving Repr, DecidableEq

/-- `suffix` as chosen inside the `filename` property. -/
def suffixFor (backup_type : String) : String :=
  if backup_type = "globals" then GLOBALS_SUFFIX else REGULAR_SUFFIX

/-- The dot-joined base name built by the `filename` property. -/
def baseFilenameChars (f : BackupFields) : List Char :=
  joinSep '.' [f.hostname_label.data, f.port_label.data, f.database_label.data,
    f.schema_label.data, f.date.data, f.backup_type.data,
    (suffixFor f.backup_type).data]

/-- The `Backup.filename` property: join the seven fields with dots, check
the separator count, and place the result inside `backup_dir`. -/
def BackupFields.filename (f : BackupFields) : Except BErr String :=
  if (baseFilenameChars f).count '.' = NUM_FILENAME_PARTS - 1 then
    .ok (String.mk (posixJoinChars f.backup_dir.data (baseFilenameChars f)))
  else
    .error (.runtimeError "Constructed filename does not have 6 periods")

/-- `Backup._parse_filename` (the `Backup(filename=...)` construction
path): `os.path.split`, split the base name on dots, then the light
validation: field count, date parse, backup type, suffix membership. -/
def parseFilename (filename : String) : Except BErr BackupFields :=
  match splitSep '.' (baseChars filename.data) with
  | [h, p, db, sl, dt, bt, suf] =>
    match parseDateChars dt with
    | none => .error (.valueError (filename ++ " contains invalid date " ++
        String.mk dt))
    | some _ =>
      match validate_backup_type (String.mk bt) with
      | .error e => .error e
      | .ok _ =>
        if String.mk suf = GLOBALS_SUFFIX ∨ String.mk suf = REGULAR_SUFFIX then
          .ok ⟨String.mk (dirChars filename.data), String.mk h, String.mk p,
            String.mk db, String.mk sl, String.mk dt, String.mk bt⟩
        else .error (.valueError ("Invalid backup suffix: " ++ String.mk suf))
  | _ => .error (.valueError ("Invalid backup filename: " ++
      String.mk (baseChars filename.data)))

/-- A prospectively constructed `Backup` object. -/
structure Backup extends BackupFields where
  schema_spec : SchemaSpec
  schema_names : List String
  empty : Bool
  conn_info : ConnInfo
deriving Repr, DecidableEq

/-- The prospective branch of `Backup.__init__` past the required-argument
checks: label normalisation, the dot sanity check over
port/database/schema names, date stamping from `today`, and backup-type
validation, in source order.  `database = ""` models a missing/`None`
database and `ghn` is the ambient `socket.gethostname()`. -/
def mkBackupBody (backup_dir : String) (backup_type : String)
    (database : String) (schema_spec : SchemaSpec) (conn_info : ConnInfo)
    (today : PyDate) (empty : Bool) (ghn : String) : Except BErr Backup :=
  let hl := hostname_label conn_info.hostname ghn
  let pl := port_label conn_info.port
  let dbl := database_label database
  match schema_label schema_spec empty with
  | .error e => .error e
  | .ok sl =>
    let names := schema_names_of schema_spec
    if '.' ∈ pl.data ∨ '.' ∈ dbl.data ∨ names.any (fun s => '.' ∈ s.data) then
      .error (.valueError "Port, database, or schema may not contain `.`")
    else
      match validate_backup_type backup_type with
      | .error e => .error e
      | .ok _ =>
        .ok ⟨⟨backup_dir, hl, pl, dbl, sl, today.strftime, backup_type⟩,
          schema_spec, names, empty, conn_info⟩

def mkBackup (backup_dir : String) (backup_type : String) (database : String)
    (schema_spec : SchemaSpec) (conn_info : ConnInfo) (today : PyDate)
    (empty : Bool) (ghn : String) : Except BErr Backup :=
  if backup_type = "globals" then
    if backup_dir = "" then .error (.valueError "Required argument: backup_dir")
    else mkBackupBody backup_dir backup_type database schema_spec conn_info
      today empty ghn
  else
    if backup_dir = "" ∨ backup_type = "" ∨ database = "" then
      .error (.valueError "Required arguments: backup_dir, backup_type, database")
    else mkBackupBody backup_dir backup_type database schema_spec conn_info
      today empty ghn

/-- `Backup.filename_with_date_masked`: re-parse this backup's own
filename, optionally override the backup type, put `*` in the date field
and re-encode. -/
def filename_with_date_masked (f : BackupFields) (ov : Option String) :
    Except BErr String :=
  match f.filename with
  | .error e => .error e
  | .ok fn =>
    match parseFilename fn with
    | .error e => .error e
    | .ok m =>
      match ov with
      | some t =>
        match validate_backup_type t with
        | .error e => .error e
        | .ok _ => BackupFields.filename {m with backup_type := t, date := "*"}
      | none => BackupFields.filename {m with date := "*"}

/-- `Backup.week_number` on a stored date string (`date_obj` re-parses the
string, raising `ValueError` when it is unparseable). -/
def week_number_of (date : String) : Except BErr (Int × Int) :=
  match parseDateStr date with
  | none => .error (.valueError ("time data " ++ date ++
      " does not match format %Y-%m-%d"))
  | some (y, m, d) => .ok (isocalendarYW y m d)

/-- `Backup.month_number` on a stored date string. -/
def month_number_of (date : String) : Except BErr (Int × Int) :=
  match parseDateStr date with
  | none => .error (.valueError ("time data " ++ date ++
      " does not match format %Y-%m-%d"))
  | some (y, m, _) => .ok ((y : Int), (m : Int))

/-! ## Filesystem model and glob matching

The backup directory is modelled as a list of `(basename, inode)` entries;
hard links are entries sharing an inode.  `glob.glob(pattern)` lists the
directory named by the pattern's `os.path.split` head and keeps the base
names matching the pattern's tail under `fnmatch`, returning joined paths.
The matcher below implements `fnmatch` for the wildcards `*` and `?`
(character classes `[...]` do not occur in the masks the code builds and
are treated as literal characters).
-/

/-- One pattern character against one text character (`?` matches any). -/
def charMatch (pc c : Char) : Bool := if pc = '?' then true else pc = c

/-- Match a wildcard-free segment against the entire text. -/
def litMatch : List Char → List Char → Bool
  | [], [] => true
  | [], _ :: _ => false
  | _ :: _, [] => false
  | p :: ps, c :: cs => charMatch p c && litMatch ps cs

/-- Consume a wildcard-free segment from the front, returning the rest. -/
def litPre : List Char → List Char → Option (List Char)
  | [], s => some s
  | _ :: _, [] => none
  | p :: ps, c :: cs => if charMatch p c then litPre ps cs else none

/-- Leftmost occurrence of a segment; returns the text after it. -/
def findSeg (seg : List Char) : List Char → Option (List Char)
  | [] => litPre seg []
  | c :: cs =>
    match litPre seg (c :: cs) with
    | some r => some r
    | none => findSeg seg cs

/-- Match the segments that follow a `*`: every middle segment at its
leftmost occurrence, the final segment anchored at the end. -/
def matchMids : List (List Char) → List Char → Bool
  | [], _ => false
  | [last], s =>
    last.length ≤ s.length && litMatch last (s.drop (s.length - last.length))
  | seg :: rest, s =>
    match findSeg seg s with
    | none => false
    | some r => matchMids rest r

/-- `fnmatch.fnmatch` for patterns whose wildcards are `*` and `?`. -/
def fnmatchChars (mask f : List Char) : Bool :=
  match splitSep '*' mask with
  | [] => false
  | [seg] => litMatch seg f
  | seg0 :: rest =>
    match litPre seg0 f with
    | none => false
    | some r => matchMids rest r

/-- Boolean code-point comparison of character lists (Python `<` on
strings). -/
def lexLtB : List Char → List Char → Bool
  | [], [] => false
  | [], _ :: _ => true
  | _ :: _, [] => false
  | a :: as, b :: bs => if a < b then true else if b < a then false else lexLtB as bs

/-- Python string `<=`, as the sort comparator of `sorted`. -/
def pyLeRel : String → String → Prop := fun s t => lexLtB t.data s.data = false

instance : DecidableRel pyLeRel := fun _ _ =>
  inferInstanceAs (Decidable (_ = false))

/-- `backup.sort_files`: plain lexicographic sort (Python `sorted` with the
identity key; both timsort and insertion sort are stable, hence agree). -/
def sort_files (l : List String) : List String := List.insertionSort pyLeRel l

structure FS where
  entries : List (String × Nat)
deriving Repr, DecidableEq

def FS.names (fs : FS) : List String := fs.entries.map (fun e => e.1)

def FS.inodeOf (fs : FS) (name : String) : Option Nat :=
  (fs.entries.find? (fun e => e.1 = name)).map (fun e => e.2)

/-- `backup.sorted_files`: glob then sort.  The model's directory listing
is `fs`; the pattern's directory head is carried into the returned paths
exactly as `glob` does. -/
def sorted_files (fs : FS) (pattern : String) : List String :=
  let d := dirChars pattern.data
  let mb := baseChars pattern.data
  sort_files ((fs.names.filter (fun n => fnmatchChars mb n.data)).map
    (fun n => String.mk (posixJoinChars d n.data)))

/-- `os.link(src, dst)`: fails if `src` is missing or `dst` exists;
otherwise `dst` becomes a second directory entry for `src`'s inode. -/
def FS.link (fs : FS) (src dst : String) : Except BErr FS :=
  let s := String.mk (baseChars src.data)
  let d := String.mk (baseChars dst.data)
  match fs.inodeOf s with
  | none => .error (.fileNotFoundError src)
  | some i =>
    if d ∈ fs.names then .error (.fileExistsError dst)
    else .ok ⟨fs.entries ++ [(d, i)]⟩

/-- `os.unlink(path)`: removes the directory entry (only this name; other
links to the same inode survive). -/
def FS.unlink (fs : FS) (path : String) : Except BErr FS :=
  let b := String.mk (baseChars path.data)
  if b ∈ fs.names then .ok ⟨fs.entries.filter (fun e => !(e.1 = b))⟩
  else .error (.fileNotFoundError path)

def FS.freshInode (fs : FS) : Nat :=
  fs.entries.foldr (fun e a => max e.2 a) 0 + 1

/-- Creation (with truncation) of a dump output file, as `pg_dump -f` /
`pg_dumpall -f` produce it. -/
def FS.createFile (fs : FS) (path : String) : FS :=
  let b := String.mk (baseChars path.data)
  ⟨fs.entries.filter (fun e => !(e.1 = b)) ++ [(b, fs.freshInode)]⟩

/-- The externally observable side effects of one backup run. -/
inductive Action where
  | link (src dst : String)
  | dump (database path : String) (schemas : List String) (empty : Bool)
  | dumpGlobals (path : String)
deriving Repr, DecidableEq

/-! ## The operations -/

/-- `Backup.do_promotion`, transcribed branch for branch.  Returns the
updated filesystem and the actions performed (a hard link or nothing —
this function never requests a dump). -/
def do_promotion (fs : FS) (f : BackupFields) : Except BErr (FS × List Action) :=
  if f.backup_type = "weekly" then
    match week_number_of f.date with
    | .error e => .error e
    | .ok wn =>
      match filename_with_date_masked f none with
      | .error e => .error e
      | .ok mask =>
        let weekly_backups := sorted_files fs mask
        let promoteRes : Except BErr Bool :=
          match weekly_backups.getLast? with
          | none => .ok true
          | some last =>
            match parseFilename last with
            | .error e => .error e
            | .ok lastb =>
              match week_number_of lastb.date with
              | .error e => .error e
              | .ok lwn => .ok (if lwn = wn then false else true)
        match promoteRes with
        | .error e => .error e
        | .ok promote =>
          if promote then
            match filename_with_date_masked f (some "daily") with
            | .error e => .error e
            | .ok daily_mask =>
              match (sorted_files fs daily_mask).getLast? with
              | none => .error (.runtimeError
                  ("Expected daily backup(s) matching " ++ daily_mask))
              | some daily_to_promote =>
                match f.filename with
                | .error e => .error e
                | .ok dst =>
                  match fs.link daily_to_promote dst with
                  | .error e => .error e
                  | .ok fs2 => .ok (fs2, [.link daily_to_promote dst])
          else .ok (fs, [])
  else if f.backup_type = "monthly" then
    match month_number_of f.date with
    | .error e => .error e
    | .ok mn =>
      match filename_with_date_masked f none with
      | .error e => .error e
      | .ok mask =>
        let monthly_backups := sorted_files fs mask
        let promoteRes : Except BErr Bool :=
          match monthly_backups.getLast? with
          | none => .ok true
          | some last =>
            match parseFilename last with
            | .error e => .error e
            | .ok lastb =>
              match month_number_of lastb.date with
              | .error e => .error e
              | .ok lmn => .ok (if lmn = mn then false else true)
        match promoteRes with
        | .error e => .error e
        | .ok promote =>
          if promote then
            match filename_with_date_masked f (some "weekly") with
            | .error e => .error e
            | .ok weekly_mask =>
              match (sorted_files fs weekly_mask).getLast? with
              | none => .error (.runtimeError
                  ("Expected weekly backup(s) matching " ++ weekly_mask))
              | some weekly_to_promote =>
                match f.filename with
                | .error e => .error e
                | .ok dst =>
                  match fs.link weekly_to_promote dst with
                  | .error e => .error e
                  | .ok fs2 => .ok (fs2, [.link weekly_to_promote dst])
          else .ok (fs, [])
  else .ok (fs, [])

/-- `Backup.has_promotable_more_granular_backups`. -/
def has_promotable_more_granular_backups (f : BackupFields)
    (days_to_keep weeks_to_keep : Nat) : Bool :=
  if f.backup_type = "weekly" then decide (days_to_keep ≠ 0)
  else if f.backup_type = "monthly" then decide (weeks_to_keep ≠ 0)
  else false

/-- Python's `files[:-n]` slice: for `n = 0` this is `files[:0] = []`. -/
def pySliceUpToNeg {α : Type} (n : Nat) (l : List α) : List α :=
  if n = 0 then [] else l.take (l.length - n)

/-- Unlink the given paths in order (the `for f in ...: os.unlink(f)`
loop), also returning the list of deleted paths. -/
def unlinkAll (fs : FS) : List String → Except BErr (FS × List String)
  | [] => .ok (fs, [])
  | f :: rest =>
    match fs.unlink f with
    | .error e => .error e
    | .ok fs2 =>
      match unlinkAll fs2 rest with
      | .error e => .error e
      | .ok (fs3, del) => .ok (fs3, f :: del)

/-- `Backup.expire`: rebuild a mask object from this backup's own fields,
glob its dated-wildcard pattern, and delete all but the last
`num_to_keep` matches in sorted order. -/
def expire (fs : FS) (b : Backup) (days weeks months : Nat) (ghn : String) :
    Except BErr (FS × List String) :=
  match parseDateStr b.date with
  | none => .error (.valueError ("time data " ++ b.date ++
      " does not match format %Y-%m-%d"))
  | some (y, m, d) =>
    match mkBackup b.backup_dir b.backup_type b.database_label b.schema_spec
        b.conn_info ⟨y, m, d⟩ b.empty ghn with
    | .error e => .error e
    | .ok mask_obj =>
      match filename_with_date_masked mask_obj.toBackupFields none with
      | .error e => .error e
      | .ok pattern =>
        let numRes : Except BErr Nat :=
          if b.backup_type = "globals" then .ok 1
          else if b.backup_type = "daily" then .ok days
          else if b.backup_type = "weekly" then .ok weeks
          else if b.backup_type = "monthly" then .ok months
          else .error (.valueError ("Invalid self.backup_type " ++ b.backup_type))
        match numRes with
        | .error e => .error e
        | .ok num_to_keep =>
          unlinkAll fs (pySliceUpToNeg num_to_keep (sorted_files fs pattern))

/-- Python truthiness of a `schema_spec` value (`SchemaCriteria` objects
are always truthy). -/
def schemaSpecTruthy : SchemaSpec → Bool
  | .noneSpec => false
  | .one s => if s = "" then false else true
  | .many l => !l.isEmpty
  | .criteria _ _ _ => true

/-- `Backup.backup`: promotion when a finer tier is enabled, otherwise a
dump (globals or regular, with the schema-list shaping and the
`empty`-vs-schemas guard of `pg_utils.pg_dump`), followed by expiration. -/
def Backup.backup (b : Backup) (fs : FS) (days weeks months : Nat)
    (ghn : String) : Except BErr (FS × List Action × List String) :=
  let act : Except BErr (FS × List Action) :=
    if has_promotable_more_granular_backups b.toBackupFields days weeks then
      do_promotion fs b.toBackupFields
    else
      match b.toBackupFields.filename with
      | .error e => .error e
      | .ok fn =>
        if b.backup_type = "globals" then
          .ok (fs.createFile fn, [.dumpGlobals fn])
        else
          let unselective := match b.schema_spec with
            | .criteria i e _ => !(truthyOpt i || truthyOpt e)
            | _ => false
          let schema_list :=
            if !(schemaSpecTruthy b.schema_spec) || unselective then []
            else b.schema_names
          if b.empty ∧ schema_list ≠ [] then
            .error (.valueError "non-None schemas incompatible with `empty`")
          else
            .ok (fs.createFile fn, [.dump b.database_label fn schema_list b.empty])
  match act with
  | .error e => .error e
  | .ok (fs1, acts) =>
    match expire fs1 b days weeks months ghn with
    | .error e => .error e
    | .ok (fs2, deleted) => .ok (fs2, acts, deleted)

/-! ## Basic facts about labels and construction -/

theorem string_mk_data (s : String) : String.mk s.data = s := by
  cases s
  rfl

theorem mem_joinSep (sep : Char) :
    ∀ (parts : List (List Char)) (c : Char), c ∈ joinSep sep parts →
      c = sep ∨ ∃ p ∈ parts, c ∈ p
  | [], c, hc => absurd hc (List.not_mem_nil c)
  | [p], c, hc => Or.inr ⟨p, by simp, by simpa [joinSep] using hc⟩
  | p :: q :: ps, c, hc => by
      simp only [joinSep, List.mem_append, List.mem_cons] at hc
      rcases hc with hc | hc | hc
      · exact Or.inr ⟨p, by simp, hc⟩
      · exact Or.inl hc
      · rcases mem_joinSep sep (q :: ps) c hc with h | ⟨x, hx, hcx⟩
        · exact Or.inl h
        · exact Or.inr ⟨x, List.mem_cons_of_mem p hx, hcx⟩

theorem joinSep_cons_cons_ne_nil (sep : Char) (p q : List Char)
    (ps : List (List Char)) : joinSep sep (p :: q :: ps) ≠ [] := by
  simp only [joinSep]
  intro h
  have := congrArg List.length h
  simp at this

/-- The hostname label never contains a dot: either the input had none, or
everything from the first dot on was stripped. -/
theorem stripAtDot_no_dot (s : String) : '.' ∉ (stripAtDot s).data := by
  unfold stripAtDot
  by_cases hd : '.' ∈ s.data
  · rw [if_pos hd]
    intro hmem
    have := List.mem_takeWhile_imp (by simpa using hmem)
    simp [notDot] at this
  · rw [if_neg hd]
    exact hd

theorem hostname_label_no_dot (h : Option String) (g : String) :
    '.' ∉ (hostname_label h g).data := by
  unfold hostname_label
  exact stripAtDot_no_dot _

theorem suffixFor_eq (bt : String) :
    suffixFor bt = GLOBALS_SUFFIX ∨ suffixFor bt = REGULAR_SUFFIX := by
  unfold suffixFor
  split
  · exact Or.inl rfl
  · exact Or.inr rfl

theorem suffixFor_no_dot (bt : String) : '.' ∉ (suffixFor bt).data := by
  rcases suffixFor_eq bt with h | h <;> rw [h] <;> decide

theorem suffixFor_no_slash (bt : String) : '/' ∉ (suffixFor bt).data := by
  rcases suffixFor_eq bt with h | h <;> rw [h] <;> decide

theorem backup_type_chars (bt : String) (h : bt ∈ BACKUP_TYPES) :
    '.' ∉ bt.data ∧ '/' ∉ bt.data ∧ '*' ∉ bt.data ∧ bt ≠ "" := by
  simp only [BACKUP_TYPES, List.mem_cons, List.mem_singleton] at h
  rcases h with rfl | rfl | rfl | h
  · refine ⟨by decide, by decide, by decide, by decide⟩
  · refine ⟨by decide, by decide, by decide, by decide⟩
  · refine ⟨by decide, by decide, by decide, by decide⟩
  · rcases h with rfl | h
    · refine ⟨by decide, by decide, by decide, by decide⟩
    · cases h

theorem database_label_ne_empty (db : String) : database_label db ≠ "" := by
  unfold database_label
  split
  · decide
  · assumption

theorem database_label_idem (db : String) :
    database_label (database_label db) = database_label db := by
  by_cases h : db = ""
  · subst h
    rfl
  · simp [database_label, h]

/-- Everything `mkBackup` guarantees about a successfully constructed
backup object. -/
theorem mkBackup_ok {bd bt db : String} {ss : SchemaSpec} {ci : ConnInfo}
    {t : PyDate} {e : Bool} {g : String} {b : Backup}
    (h : mkBackup bd bt db ss ci t e g = .ok b) :
    b.backup_dir = bd ∧
    b.hostname_label = hostname_label ci.hostname g ∧
    b.port_label = port_label ci.port ∧
    b.database_label = database_label db ∧
    schema_label ss e = .ok b.schema_label ∧
    b.date = t.strftime ∧
    b.backup_type = bt ∧
    b.schema_spec = ss ∧
    b.schema_names = schema_names_of ss ∧
    b.empty = e ∧
    b.conn_info = ci ∧
    bt ∈ BACKUP_TYPES ∧
    '.' ∉ b.port_label.data ∧
    '.' ∉ b.database_label.data ∧
    (∀ s ∈ b.schema_names, '.' ∉ s.data) ∧
    bd ≠ "" := by
  have hsplit : mkBackupBody bd bt db ss ci t e g = .ok b ∧ bd ≠ "" := by
    unfold mkBackup at h
    split at h
    · split at h
      · cases h
      · exact ⟨h, by assumption⟩
    · split at h
      · cases h
      · rename_i hreq
        push_neg at hreq
        exact ⟨h, hreq.1⟩
  obtain ⟨h, hbd⟩ := hsplit
  unfold mkBackupBody at h
  rcases hsl : schema_label ss e with e' | sl
  · simp only [hsl] at h
    cases h
  · simp only [hsl] at h
    by_cases hdots : '.' ∈ (port_label ci.port).data ∨
        '.' ∈ (database_label db).data ∨
        (schema_names_of ss).any (fun s => '.' ∈ s.data)
    · rw [if_pos hdots] at h
      cases h
    · rw [if_neg hdots] at h
      rcases hval : validate_backup_type bt with e' | u
      · simp only [hval] at h
        cases h
      · simp only [hval] at h
        rw [Except.ok.injEq] at h
        subst h
        push_neg at hdots
        obtain ⟨hd1, hd2, hd3⟩ := hdots
        have hd3' : ∀ s ∈ schema_names_of ss, '.' ∉ s.data := by
          intro s hs hmem
          exact hd3 (by
            simp only [List.any_eq_true]
            exact ⟨s, hs, by simpa using hmem⟩)
        have hbt : bt ∈ BACKUP_TYPES := by
          by_contra hbtn
          unfold validate_backup_type at hval
          rw [if_neg hbtn] at hval
          cases hval
        refine ⟨rfl, rfl, rfl, rfl, ?_, rfl, rfl, rfl, rfl, rfl, rfl,
          hbt, hd1, hd2, hd3', hbd⟩
        rfl

/-! ## The encode/decode round trip -/

theorem base_parts_no_dot (f : BackupFields)
    (hh : '.' ∉ f.hostname_label.data) (hp : '.' ∉ f.port_label.data)
    (hdb : '.' ∉ f.database_label.data) (hs : '.' ∉ f.schema_label.data)
    (hdt : '.' ∉ f.date.data) (hbt : '.' ∉ f.backup_type.data) :
    ∀ p ∈ [f.hostname_label.data, f.port_label.data, f.database_label.data,
      f.schema_label.data, f.date.data, f.backup_type.data,
      (suffixFor f.backup_type).data], '.' ∉ p := by
  intro p hmem
  simp only [List.mem_cons, List.not_mem_nil, or_false] at hmem
  rcases hmem with rfl | rfl | rfl | rfl | rfl | rfl | rfl
  · exact hh
  · exact hp
  · exact hdb
  · exact hs
  · exact hdt
  · exact hbt
  · exact suffixFor_no_dot f.backup_type

theorem filename_ok (f : BackupFields)
    (hh : '.' ∉ f.hostname_label.data) (hp : '.' ∉ f.port_label.data)
    (hdb : '.' ∉ f.database_label.data) (hs : '.' ∉ f.schema_label.data)
    (hdt : '.' ∉ f.date.data) (hbt : '.' ∉ f.backup_type.data) :
    f.filename =
      .ok (String.mk (posixJoinChars f.backup_dir.data (baseFilenameChars f))) := by
  unfold BackupFields.filename
  rw [if_pos]
  unfold baseFilenameChars
  rw [count_joinSep '.' _ (base_parts_no_dot f hh hp hdb hs hdt hbt)]
  rfl

theorem baseFilenameChars_no_slash (f : BackupFields)
    (hh : '/' ∉ f.hostname_label.data) (hp : '/' ∉ f.port_label.data)
    (hdb : '/' ∉ f.database_label.data) (hs : '/' ∉ f.schema_label.data)
    (hdt : '/' ∉ f.date.data) (hbt : '/' ∉ f.backup_type.data) :
    '/' ∉ baseFilenameChars f := by
  intro hmem
  rcases mem_joinSep '.' _ '/' hmem with h | ⟨p, hpmem, hcp⟩
  · cases h
  · simp only [List.mem_cons, List.not_mem_nil, or_false] at hpmem
    rcases hpmem with rfl | rfl | rfl | rfl | rfl | rfl | rfl
    · exact hh hcp
    · exact hp hcp
    · exact hdb hcp
    · exact hs hcp
    · exact hdt hcp
    · exact hbt hcp
    · exact suffixFor_no_slash f.backup_type hcp

theorem baseFilenameChars_ne_nil (f : BackupFields) :
    baseFilenameChars f ≠ [] :=
  joinSep_cons_cons_ne_nil '.' _ _ _

theorem parseFilename_encode (f : BackupFields)
    (hh : '.' ∉ f.hostname_label.data) (hp : '.' ∉ f.port_label.data)
    (hdb : '.' ∉ f.database_label.data) (hs : '.' ∉ f.schema_label.data)
    (hdt : '.' ∉ f.date.data)
    (hh2 : '/' ∉ f.hostname_label.data) (hp2 : '/' ∉ f.port_label.data)
    (hdb2 : '/' ∉ f.database_label.data) (hs2 : '/' ∉ f.schema_label.data)
    (hdt2 : '/' ∉ f.date.data)
    (hdate : (parseDateChars f.date.data).isSome = true)
    (hbtv : f.backup_type ∈ BACKUP_TYPES) :
    parseFilename (String.mk (posixJoinChars f.backup_dir.data
        (baseFilenameChars f))) =
      .ok ⟨String.mk (dirChars (posixJoinChars f.backup_dir.data
          (baseFilenameChars f))),
        f.hostname_label, f.port_label, f.database_label, f.schema_label,
        f.date, f.backup_type⟩ := by
  obtain ⟨hbt, hbt2, _, _⟩ := backup_type_chars f.backup_type hbtv
  have hslash : '/' ∉ baseFilenameChars f :=
    baseFilenameChars_no_slash f hh2 hp2 hdb2 hs2 hdt2 hbt2
  have hbase : baseChars (String.mk (posixJoinChars f.backup_dir.data
      (baseFilenameChars f))).data = baseFilenameChars f :=
    baseChars_posixJoin _ _ hslash
  unfold parseFilename
  rw [hbase]
  unfold baseFilenameChars
  rw [splitSep_joinSep '.' _ (by simp) (base_parts_no_dot f hh hp hdb hs hdt hbt)]
  rcases hv : parseDateChars f.date.data with _ | v
  · rw [hv] at hdate
    cases hdate
  · simp only [string_mk_data, hv]
    have hval : validate_backup_type f.backup_type = .ok () := by
      unfold validate_backup_type
      rw [if_pos hbtv]
    simp only [hval]
    rw [if_pos (suffixFor_eq f.backup_type)]

/-- A backup directory path in the form `os.path.split` preserves: empty,
or without a trailing slash. -/
def GoodDir (d : String) : Prop :=
  d.data = [] ∨ d.data.getLast? ≠ some '/'

instance (d : String) : Decidable (GoodDir d) := by
  unfold GoodDir; infer_instance

theorem posixJoinChars_nil (x : List Char) : posixJoinChars [] x = x := rfl

theorem dirChars_no_slash (x : List Char) (hx : '/' ∉ x) : dirChars x = [] := by
  unfold dirChars
  simp only [baseChars_no_slash_self x hx, Nat.sub_self, List.take_zero]
  rfl

theorem dropWhile_slash_getLast (d : List Char) (hne : d ≠ [])
    (hlast : d.getLast? ≠ some '/') :
    (List.dropWhile (fun c => c = '/') d.reverse).reverse = d := by
  rcases hrev : d.reverse with _ | ⟨c, cs⟩
  · exact absurd (by simpa using congrArg List.reverse hrev) hne
  · have hd : d = cs.reverse ++ [c] := by
      have := congrArg List.reverse hrev
      simpa using this
    have hc : d.getLast? = some c := by
      rw [hd]
      exact List.getLast?_concat _
    have hcne : c ≠ '/' := fun hcc => hlast (hcc ▸ hc)
    rw [List.dropWhile_cons, if_neg (by simpa using hcne)]
    rw [← hrev, List.reverse_reverse]

theorem dirChars_append_slash (d x : List Char) (hdnil : d ≠ [])
    (hlast : d.getLast? ≠ some '/') (hx : '/' ∉ x) :
    dirChars (d ++ '/' :: x) = d := by
  have hbase := baseChars_append d x hx
  have htake : (d ++ '/' :: x).take ((d ++ '/' :: x).length - x.length) =
      d ++ ['/'] := by
    have heq : d ++ '/' :: x = (d ++ ['/']) ++ x := by simp
    have hlen : (d ++ '/' :: x).length - x.length = (d ++ ['/']).length := by
      simp only [List.length_append, List.length_cons, List.length_nil]
      omega
    rw [hlen, heq, List.take_left]
  have hne2 : (d ++ ['/']).isEmpty = false := by
    simp [List.isEmpty_iff]
  have hlastmem : d.getLast hdnil ∈ d := List.getLast_mem hdnil
  have hlne : d.getLast hdnil ≠ '/' := by
    intro hcc
    exact hlast (by rw [List.getLast?_eq_getLast d hdnil, hcc])
  have hall : ((d ++ ['/']).all fun c => c = '/') = false := by
    rcases Bool.eq_false_or_eq_true ((d ++ ['/']).all fun c => c = '/') with
      ht | hf
    · have := List.all_eq_true.mp ht (d.getLast hdnil)
        (List.mem_append_left _ hlastmem)
      simp only [decide_eq_true_eq] at this
      exact absurd this hlne
    · exact hf
  simp only [dirChars, hbase, htake, hne2, hall, Bool.or_self]
  rw [if_neg (by simp)]
  rw [List.reverse_append, List.reverse_singleton, List.singleton_append,
    List.dropWhile_cons, if_pos (by simp)]
  exact dropWhile_slash_getLast d hdnil hlast

theorem dirChars_posixJoin (d x : List Char)
    (hgood : d = [] ∨ d.getLast? ≠ some '/') (hx : '/' ∉ x) :
    dirChars (posixJoinChars d x) = d := by
  by_cases hdnil : d = []
  · subst hdnil
    rw [posixJoinChars_nil]
    exact dirChars_no_slash x hx
  · have hlast : d.getLast? ≠ some '/' := hgood.resolve_left hdnil
    have hjoin : posixJoinChars d x = d ++ '/' :: x := by
      unfold posixJoinChars
      rw [if_neg hdnil, if_neg hlast]
    rw [hjoin]
    exact dirChars_append_slash d x hdnil hlast hx

/-! ## Well-formed fields and the date-masked pattern -/

/-- The mask object produced by `filename_with_date_masked`: the same
identity with the date replaced by `*` and the tier possibly overridden. -/
def maskedFields (f : BackupFields) (bt : String) : BackupFields :=
  { f with date := "*", backup_type := bt }

/-- Field well-formedness: the label invariants `Backup.__init__`
establishes (no separator in any label, a parseable date, a known tier),
plus the path-hygiene conditions the filename round trip needs: no `/` in
any label and a directory path without a trailing slash. -/
def WellFormed (f : BackupFields) : Prop :=
  '.' ∉ f.hostname_label.data ∧ '.' ∉ f.port_label.data ∧
  '.' ∉ f.database_label.data ∧ '.' ∉ f.schema_label.data ∧
  '.' ∉ f.date.data ∧
  '/' ∉ f.hostname_label.data ∧ '/' ∉ f.port_label.data ∧
  '/' ∉ f.database_label.data ∧ '/' ∉ f.schema_label.data ∧
  '/' ∉ f.date.data ∧
  (parseDateChars f.date.data).isSome = true ∧
  f.backup_type ∈ BACKUP_TYPES ∧
  GoodDir f.backup_dir

instance (f : BackupFields) : Decidable (WellFormed f) := by
  unfold WellFormed; infer_instance

theorem wf_filename_ok (f : BackupFields) (hwf : WellFormed f) :
    f.filename =
      .ok (String.mk (posixJoinChars f.backup_dir.data (baseFilenameChars f))) := by
  obtain ⟨h1, h2, h3, h4, h5, _, _, _, _, _, _, hbtv, _⟩ := hwf
  exact filename_ok f h1 h2 h3 h4 h5 (backup_type_chars f.backup_type hbtv).1

theorem wf_parse_encode (f : BackupFields) (hwf : WellFormed f) :
    parseFilename (String.mk (posixJoinChars f.backup_dir.data
        (baseFilenameChars f))) = .ok f := by
  obtain ⟨h1, h2, h3, h4, h5, h6, h7, h8, h9, h10, hdate, hbtv, hgood⟩ := hwf
  have := parseFilename_encode f h1 h2 h3 h4 h5 h6 h7 h8 h9 h10 hdate hbtv
  rw [this]
  have hdir : dirChars (posixJoinChars f.backup_dir.data (baseFilenameChars f))
      = f.backup_dir.data :=
    dirChars_posixJoin _ _ hgood (baseFilenameChars_no_slash f h6 h7 h8 h9 h10
      (backup_type_chars f.backup_type hbtv).2.1)
  rw [hdir, string_mk_data]

theorem masked_no_dot : '.' ∉ ("*" : String).data := by decide

/-- The date-masked pattern of a well-formed identity: the same fields with
`*` in the date position, re-joined under the same directory. -/
theorem wf_masked_eq (f : BackupFields) (hwf : WellFormed f)
    (ov : Option String) (hov : ∀ t, ov = some t → t ∈ BACKUP_TYPES) :
    filename_with_date_masked f ov =
      .ok (String.mk (posixJoinChars f.backup_dir.data
        (baseFilenameChars (maskedFields f (ov.getD f.backup_type))))) := by
  obtain ⟨h1, h2, h3, h4, h5, h6, h7, h8, h9, h10, hdate, hbtv, hgood⟩ := hwf
  have hfn := wf_filename_ok f ⟨h1, h2, h3, h4, h5, h6, h7, h8, h9, h10,
    hdate, hbtv, hgood⟩
  have hpe := wf_parse_encode f ⟨h1, h2, h3, h4, h5, h6, h7, h8, h9, h10,
    hdate, hbtv, hgood⟩
  simp only [filename_with_date_masked, hfn, hpe]
  rcases ov with _ | t
  · show BackupFields.filename (maskedFields f f.backup_type) = _
    exact filename_ok (maskedFields f f.backup_type) h1 h2 h3 h4 masked_no_dot
      (backup_type_chars f.backup_type hbtv).1
  · have hbt' : t ∈ BACKUP_TYPES := hov t rfl
    have hval : validate_backup_type t = .ok () := by
      unfold validate_backup_type
      rw [if_pos hbt']
    simp only [hval]
    show BackupFields.filename (maskedFields f t) = _
    exact filename_ok (maskedFields f t) h1 h2 h3 h4 masked_no_dot
      (backup_type_chars t hbt').1

/-! ## Facts about the date stamp of a prospective backup -/

theorem strftime_bounds (t : PyDate) (hv : t.Valid) :
    t.year < 10 ^ 4 ∧ t.month < 10 ^ 2 ∧ t.day < 10 ^ 2 := by
  obtain ⟨_, h2, _, h4, _, h6⟩ := hv
  have := daysInMonth_le_31 t.year t.month
  refine ⟨by norm_num; omega, by norm_num; omega, by norm_num; omega⟩

theorem strftime_no_dot (t : PyDate) (hv : t.Valid) :
    '.' ∉ t.strftime.data := by
  obtain ⟨hy, hm, hd⟩ := strftime_bounds t hv
  exact fmtDateChars_no_mem t.year t.month t.day hy hm hd '.' (by decide)
    (by decide)

theorem strftime_no_slash (t : PyDate) (hv : t.Valid) :
    '/' ∉ t.strftime.data := by
  obtain ⟨hy, hm, hd⟩ := strftime_bounds t hv
  exact fmtDateChars_no_mem t.year t.month t.day hy hm hd '/' (by decide)
    (by decide)

theorem strftime_no_star (t : PyDate) (hv : t.Valid) :
    '*' ∉ t.strftime.data := by
  obtain ⟨hy, hm, hd⟩ := strftime_bounds t hv
  exact fmtDateChars_no_mem t.year t.month t.day hy hm hd '*' (by decide)
    (by decide)

theorem strftime_parse_isSome (t : PyDate) (hv : t.Valid) :
    (parseDateChars t.strftime.data).isSome = true := by
  obtain ⟨h1, h2, h3, h4, h5, h6⟩ := hv
  have : parseDateChars t.strftime.data = some (t.year, t.month, t.day) :=
    parseDateChars_fmtDateChars t.year t.month t.day ⟨h1, h2, h3, h4, h5, h6⟩
  rw [this]
  rfl

/-- Every schema label is one of the fixed words or one of the resolved
schema names. -/
theorem schema_label_chars (ss : SchemaSpec) (e : Bool) (lab : String)
    (h : schema_label ss e = .ok lab) :
    lab = "no_schemas" ∨ lab = "selected_schemas" ∨ lab = "all_schemas" ∨
    (∃ s, lab = s ∧ s ∈ schema_names_of ss) := by
  cases e with
  | true =>
    cases ss <;> (cases h; exact Or.inl rfl)
  | false =>
    cases ss with
    | noneSpec =>
      cases h
      exact Or.inl rfl
    | one s =>
      cases h
      exact Or.inr (Or.inr (Or.inr ⟨lab, rfl, by simp [schema_names_of]⟩))
    | many names =>
      rcases names with _ | ⟨n, _ | ⟨m, rest⟩⟩
      · cases h
      · cases h
        exact Or.inr (Or.inr (Or.inr ⟨lab, rfl, by simp [schema_names_of]⟩))
      · cases h
        exact Or.inr (Or.inl rfl)
    | criteria incl excl r =>
      rcases htr : truthyOpt incl || truthyOpt excl with _ | _ <;>
        simp only [schema_label, htr] at h
      · cases h
        exact Or.inr (Or.inr (Or.inl rfl))
      · cases h
        exact Or.inr (Or.inl rfl)

/-- A successfully constructed backup whose labels avoid `/` (and whose
directory path has no trailing slash) has well-formed fields. -/
theorem mkBackup_wf {bd bt db : String} {ss : SchemaSpec} {ci : ConnInfo}
    {t : PyDate} {e : Bool} {g : String} {b : Backup}
    (hok : mkBackup bd bt db ss ci t e g = .ok b) (hv : t.Valid)
    (hs1 : '/' ∉ b.hostname_label.data) (hs2 : '/' ∉ b.port_label.data)
    (hs3 : '/' ∉ b.database_label.data) (hs4 : '/' ∉ b.schema_label.data)
    (hgood : GoodDir b.backup_dir) : WellFormed b.toBackupFields := by
  obtain ⟨_, hhl, _, _, hsl, hdt, hbt, _, _, _, _, hbtv, hd1, hd2, _, _⟩ :=
    mkBackup_ok hok
  have hsl' : '.' ∉ b.schema_label.data := by
    obtain ⟨_, _, _, _, _, _, _, _, hsn, _, _, _, _, _, hnames, _⟩ :=
      mkBackup_ok hok
    rcases schema_label_chars ss e b.schema_label hsl with
      h | h | h | ⟨s, hseq, hmem⟩
    · rw [h]; decide
    · rw [h]; decide
    · rw [h]; decide
    · rw [hseq]
      exact hnames s (by rw [hsn]; exact hmem)
  refine ⟨?_, hd1, hd2, hsl', ?_, hs1, hs2, hs3, hs4, ?_, ?_, ?_, hgood⟩
  · rw [hhl]
    exact hostname_label_no_dot ci.hostname g
  · rw [hdt]
    exact strftime_no_dot t hv
  · rw [hdt]
    exact strftime_no_slash t hv
  · rw [hdt]
    exact strftime_parse_isSome t hv
  · rw [hbt]
    exact hbtv

/-! ## Claim C1: the encode/decode round trip -/

/-- C1 (amended): for every valid backup identity built prospectively
whose labels contain no `/`, parsing the encoded filename back succeeds
and agrees with the prospective construction on every identity field
(host, port, database, schema, date, tier — and hence the tier-derived
suffix). -/
theorem c1_round_trip {bd bt db : String} {ss : SchemaSpec} {ci : ConnInfo}
    {t : PyDate} {e : Bool} {g : String} {b : Backup}
    (hok : mkBackup bd bt db ss ci t e g = .ok b) (hv : t.Valid)
    (hs1 : '/' ∉ b.hostname_label.data) (hs2 : '/' ∉ b.port_label.data)
    (hs3 : '/' ∉ b.database_label.data) (hs4 : '/' ∉ b.schema_label.data) :
    ∃ fn p, b.toBackupFields.filename = .ok fn ∧ parseFilename fn = .ok p ∧
      p.hostname_label = b.hostname_label ∧ p.port_label = b.port_label ∧
      p.database_label = b.database_label ∧ p.schema_label = b.schema_label ∧
      p.date = b.date ∧ p.backup_type = b.backup_type := by
  obtain ⟨_, hhl, _, _, hsl, hdt, hbt, _, _, _, _, hbtv, hd1, hd2, _, _⟩ :=
    mkBackup_ok hok
  have hhl' : '.' ∉ b.hostname_label.data := by
    rw [hhl]
    exact hostname_label_no_dot ci.hostname g
  have hsl' : '.' ∉ b.schema_label.data := by
    obtain ⟨_, _, _, _, _, _, _, _, hsn, _, _, _, _, _, hnames, _⟩ :=
      mkBackup_ok hok
    rcases schema_label_chars ss e b.schema_label hsl with
      h | h | h | ⟨s, hseq, hmem⟩
    · rw [h]; decide
    · rw [h]; decide
    · rw [h]; decide
    · rw [hseq]
      exact hnames s (by rw [hsn]; exact hmem)
  have hdt1 : '.' ∉ b.date.data := by
    rw [hdt]; exact strftime_no_dot t hv
  have hdt2 : '/' ∉ b.date.data := by
    rw [hdt]; exact strftime_no_slash t hv
  have hdtp : (parseDateChars b.date.data).isSome = true := by
    rw [hdt]; exact strftime_parse_isSome t hv
  have hbtv' : b.backup_type ∈ BACKUP_TYPES := by rw [hbt]; exact hbtv
  exact ⟨_, _, filename_ok b.toBackupFields hhl' hd1 hd2 hsl' hdt1
    (backup_type_chars b.backup_type hbtv').1,
    parseFilename_encode b.toBackupFields hhl' hd1 hd2 hsl' hdt1
      hs1 hs2 hs3 hs4 hdt2 hdtp hbtv', rfl, rfl, rfl, rfl, rfl, rfl⟩

/-- C1 counterexample: a database label containing `/` is accepted by the
prospective constructor (only `.` is rejected), but the encoded filename
then fails to decode — `os.path.split` cuts at the last slash and the
base name no longer has seven dot-separated fields.  So the round trip of
the claim fails for this valid (constructible) identity. -/
theorem c1_counterexample :
    mkBackup "backups" "daily" "a/b" (.one "public") {} ⟨2016, 1, 8⟩ false
        "myhost" =
      .ok ⟨⟨"backups", "myhost", "5432", "a/b", "public", "2016-01-08",
        "daily"⟩, .one "public", ["public"], false, {}⟩ ∧
    BackupFields.filename ⟨"backups", "myhost", "5432", "a/b", "public",
        "2016-01-08", "daily"⟩ =
      .ok "backups/myhost.5432.a/b.public.2016-01-08.daily.pg_dump_Fc" ∧
    parseFilename "backups/myhost.5432.a/b.public.2016-01-08.daily.pg_dump_Fc"
      = .error (.valueError
        "Invalid backup filename: b.public.2016-01-08.daily.pg_dump_Fc") := by
  refine ⟨by decide, by decide, by decide⟩

/-- C1 witness: the round-trip theorem applied to a concrete identity. -/
theorem c1_witness :
    ∃ fn p,
      BackupFields.filename ⟨"backups", "myhost", "5432", "mydb", "public",
        "2016-01-08", "daily"⟩ = .ok fn ∧
      parseFilename fn = .ok p ∧
      p.hostname_label = "myhost" ∧ p.port_label = "5432" ∧
      p.database_label = "mydb" ∧ p.schema_label = "public" ∧
      p.date = "2016-01-08" ∧ p.backup_type = "daily" :=
  @c1_round_trip "backups" "daily" "mydb" (.one "public") {}
    ⟨2016, 1, 8⟩ false "myhost"
    ⟨⟨"backups", "myhost", "5432", "mydb", "public", "2016-01-08",
      "daily"⟩, .one "public", ["public"], false, {}⟩
    (by decide) (by decide) (by decide) (by decide) (by decide) (by decide)

/-! ## Claim C7: decode validation -/

theorem validate_backup_type_ok_iff (t : String) :
    validate_backup_type t = .ok () ↔ t ∈ BACKUP_TYPES := by
  unfold validate_backup_type
  constructor
  · intro h
    by_contra hmem
    rw [if_neg hmem] at h
    cases h
  · intro hmem
    rw [if_pos hmem]

/-- C7 (amended): decoding a filename raises a validation error exactly
when the base name does not split into seven dot-separated fields, or the
date segment does not parse, or the tier segment is unknown, or the suffix
segment is neither `sql` nor the regular-dump suffix.  (The code checks
the suffix only for membership in that two-element set; it does not check
it against the decoded tier.) -/
theorem c7_parse_error_conditions (s : String) :
    (∃ e, parseFilename s = .error e) ↔
      ¬ ∃ h p db sl dt bt suf,
        splitSep '.' (baseChars s.data) = [h, p, db, sl, dt, bt, suf] ∧
        (parseDateChars dt).isSome = true ∧
        String.mk bt ∈ BACKUP_TYPES ∧
        (String.mk suf = GLOBALS_SUFFIX ∨ String.mk suf = REGULAR_SUFFIX) := by
  rcases hsp : splitSep '.' (baseChars s.data) with _ |
      ⟨a1, _ | ⟨a2, _ | ⟨a3, _ | ⟨a4, _ | ⟨a5, _ | ⟨a6, _ |
      ⟨a7, _ | ⟨a8, rest⟩⟩⟩⟩⟩⟩⟩⟩ <;>
    simp only [parseFilename, hsp]
  case nil =>
    refine ⟨fun _ => ?_, fun _ => ⟨_, rfl⟩⟩
    rintro ⟨h1, p1, db1, sl1, dt1, bt1, suf1, heq, -⟩
    cases heq
  case cons.nil =>
    refine ⟨fun _ => ?_, fun _ => ⟨_, rfl⟩⟩
    rintro ⟨h1, p1, db1, sl1, dt1, bt1, suf1, heq, -⟩
    cases heq
  case cons.cons.nil =>
    refine ⟨fun _ => ?_, fun _ => ⟨_, rfl⟩⟩
    rintro ⟨h1, p1, db1, sl1, dt1, bt1, suf1, heq, -⟩
    cases heq
  case cons.cons.cons.nil =>
    refine ⟨fun _ => ?_, fun _ => ⟨_, rfl⟩⟩
    rintro ⟨h1, p1, db1, sl1, dt1, bt1, suf1, heq, -⟩
    cases heq
  case cons.cons.cons.cons.nil =>
    refine ⟨fun _ => ?_, fun _ => ⟨_, rfl⟩⟩
    rintro ⟨h1, p1, db1, sl1, dt1, bt1, suf1, heq, -⟩
    cases heq
  case cons.cons.cons.cons.cons.nil =>
    refine ⟨fun _ => ?_, fun _ => ⟨_, rfl⟩⟩
    rintro ⟨h1, p1, db1, sl1, dt1, bt1, suf1, heq, -⟩
    cases heq
  case cons.cons.cons.cons.cons.cons.nil =>
    refine ⟨fun _ => ?_, fun _ => ⟨_, rfl⟩⟩
    rintro ⟨h1, p1, db1, sl1, dt1, bt1, suf1, heq, -⟩
    cases heq
  case cons.cons.cons.cons.cons.cons.cons.cons =>
    refine ⟨fun _ => ?_, fun _ => ⟨_, rfl⟩⟩
    rintro ⟨h1, p1, db1, sl1, dt1, bt1, suf1, heq, -⟩
    cases heq
  case cons.cons.cons.cons.cons.cons.cons.nil =>
    rcases hdt : parseDateChars a5 with _ | v <;> simp only [hdt]
    · constructor
      · rintro - ⟨h1, p1, db1, sl1, dt1, bt1, suf1, heq, hsome, -, -⟩
        cases heq
        rw [hdt] at hsome
        cases hsome
      · intro _
        exact ⟨_, rfl⟩
    · rcases hval : validate_backup_type (String.mk a6) with err | u <;>
        simp only [hval]
      · constructor
        · rintro - ⟨h1, p1, db1, sl1, dt1, bt1, suf1, heq, -, hmem, -⟩
          cases heq
          rw [(validate_backup_type_ok_iff (String.mk a6)).mpr hmem] at hval
          cases hval
        · intro _
          exact ⟨err, rfl⟩
      · obtain ⟨⟩ := u
        have hmem : String.mk a6 ∈ BACKUP_TYPES :=
          (validate_backup_type_ok_iff (String.mk a6)).mp hval
        by_cases hsuf : String.mk a7 = GLOBALS_SUFFIX ∨
            String.mk a7 = REGULAR_SUFFIX
        · rw [if_pos hsuf]
          constructor
          · rintro ⟨e, he⟩
            cases he
          · intro hn
            exact absurd ⟨a1, a2, a3, a4, a5, a6, a7, rfl,
              by rw [hdt]; rfl, hmem, hsuf⟩ hn
        · rw [if_neg hsuf]
          constructor
          · rintro - ⟨h1, p1, db1, sl1, dt1, bt1, suf1, heq, -, -, hsuf1⟩
            cases heq
            exact hsuf hsuf1
          · intro _
            exact ⟨_, rfl⟩

/-- C7 counterexample: the claim says a name combining the `globals` tier
with the regular-dump suffix is rejected; the code accepts it (the suffix
is checked only for membership in the two known suffixes). -/
theorem c7_counterexample :
    parseFilename "myhost.5432.mydb.public.2016-01-08.globals.pg_dump_Fc" =
      .ok ⟨"", "myhost", "5432", "mydb", "public", "2016-01-08", "globals"⟩ := by
  decide

/-- C7 witness: the amended characterisation applied to a malformed name
(wrong field count). -/
theorem c7_witness :
    (∃ e, parseFilename "nonsense" = .error e) ↔
      ¬ ∃ h p db sl dt bt suf,
        splitSep '.' (baseChars ("nonsense" : String).data) =
          [h, p, db, sl, dt, bt, suf] ∧
        (parseDateChars dt).isSome = true ∧
        String.mk bt ∈ BACKUP_TYPES ∧
        (String.mk suf = GLOBALS_SUFFIX ∨ String.mk suf = REGULAR_SUFFIX) :=
  c7_parse_error_conditions "nonsense"

/-! ## Claims C8 and C9: label derivation and separator rejection -/

/-- C8: the schema label mapping — an empty request (or `None` spec) gives
`no_schemas`; a single name (string or one-element collection) gives that
name; two or more names, or criteria with an inclusion/exclusion pattern,
give `selected_schemas`; criteria with neither give `all_schemas`. -/
theorem c8_schema_label_cases :
    (∀ ss : SchemaSpec, schema_label ss true = .ok "no_schemas") ∧
    (∀ e : Bool, schema_label .noneSpec e = .ok "no_schemas") ∧
    (∀ s : String, schema_label (.one s) false = .ok s) ∧
    (∀ s : String, schema_label (.many [s]) false = .ok s) ∧
    (∀ names : List String, 2 ≤ names.length →
      schema_label (.many names) false = .ok "selected_schemas") ∧
    (∀ incl excl r, (truthyOpt incl || truthyOpt excl) = true →
      schema_label (.criteria incl excl r) false = .ok "selected_schemas") ∧
    (∀ incl excl r, (truthyOpt incl || truthyOpt excl) = false →
      schema_label (.criteria incl excl r) false = .ok "all_schemas") := by
  refine ⟨?_, ?_, ?_, ?_, ?_, ?_, ?_⟩
  · intro ss
    cases ss <;> rfl
  · intro e
    cases e <;> rfl
  · intro s
    rfl
  · intro s
    rfl
  · intro names hlen
    rcases names with _ | ⟨a, _ | ⟨b, rest⟩⟩
    · simp at hlen
    · simp at hlen
    · rfl
  · intro incl excl r h
    simp only [schema_label, h]
  · intro incl excl r h
    simp only [schema_label, h]

/-- C8 witness: the criteria-with-include case at a concrete input. -/
theorem c8_witness :
    (truthyOpt (some "acct") || truthyOpt none) = true ∧
    schema_label (.criteria (some "acct") none []) false =
      .ok "selected_schemas" :=
  ⟨by decide,
    c8_schema_label_cases.2.2.2.2.2.1 (some "acct") none [] (by decide)⟩

/-- C9: prospective construction raises a validation error whenever the
port label, the database label, or any resolved schema name contains the
`.` separator. -/
theorem c9_dot_rejected (bd bt db : String) (ss : SchemaSpec) (ci : ConnInfo)
    (t : PyDate) (e : Bool) (g : String)
    (hdot : '.' ∈ (port_label ci.port).data ∨
      '.' ∈ (database_label db).data ∨
      ∃ s ∈ schema_names_of ss, '.' ∈ s.data) :
    ∃ err, mkBackup bd bt db ss ci t e g = .error err := by
  rcases hres : mkBackup bd bt db ss ci t e g with err | b
  · exact ⟨err, rfl⟩
  · exfalso
    obtain ⟨_, _, hpl, hdb, _, _, _, _, hsn, _, _, _, hd1, hd2, hnames, _⟩ :=
      mkBackup_ok hres
    rcases hdot with h | h | ⟨s, hs, hsd⟩
    · rw [hpl] at hd1
      exact hd1 h
    · rw [hdb] at hd2
      exact hd2 h
    · exact hnames s (by rw [hsn]; exact hs) hsd

/-- C9 witness: a port containing a dot is rejected. -/
theorem c9_witness :
    ('.' ∈ (port_label (some "54.32")).data ∨
      '.' ∈ (database_label "mydb").data ∨
      ∃ s ∈ schema_names_of (.one "public"), '.' ∈ s.data) ∧
    ∃ err, mkBackup "backups" "daily" "mydb" (.one "public")
      ⟨none, some "54.32", none⟩ ⟨2016, 1, 8⟩ false "myhost" = .error err :=
  ⟨by decide,
    c9_dot_rejected "backups" "daily" "mydb" (.one "public")
      ⟨none, some "54.32", none⟩ ⟨2016, 1, 8⟩ false "myhost" (by decide)⟩

/-! ## Claim C10 (and groundwork for C3): the expiration sweep -/

theorem mkBackup_ok_body {bd bt db : String} {ss : SchemaSpec} {ci : ConnInfo}
    {t : PyDate} {e : Bool} {g : String} {b : Backup}
    (h : mkBackup bd bt db ss ci t e g = .ok b) :
    mkBackupBody bd bt db ss ci t e g = .ok b := by
  unfold mkBackup at h
  split at h
  · split at h
    · cases h
    · exact h
  · split at h
    · cases h
    · exact h

theorem mkBackupBody_db_idem (bd bt db : String) (ss : SchemaSpec)
    (ci : ConnInfo) (t : PyDate) (e : Bool) (g : String) :
    mkBackupBody bd bt (database_label db) ss ci t e g =
      mkBackupBody bd bt db ss ci t e g := by
  unfold mkBackupBody
  rw [database_label_idem]

/-- The mask object `expire` rebuilds from a prospective backup's own
attributes is that backup itself. -/
theorem expire_remake {bd bt db : String} {ss : SchemaSpec} {ci : ConnInfo}
    {t : PyDate} {e : Bool} {g : String} {b : Backup}
    (hok : mkBackup bd bt db ss ci t e g = .ok b) (hv : t.Valid) :
    parseDateStr b.date = some (t.year, t.month, t.day) ∧
    mkBackup b.backup_dir b.backup_type b.database_label b.schema_spec
      b.conn_info ⟨t.year, t.month, t.day⟩ b.empty g = .ok b := by
  obtain ⟨hdir, _, _, hdbl, _, hdt, hbt, hspec, _, hemp, hci, hbtv, _, _, _,
    hbd⟩ := mkBackup_ok hok
  obtain ⟨h1, h2, h3, h4, h5, h6⟩ := hv
  constructor
  · rw [hdt]
    exact parseDateChars_fmtDateChars t.year t.month t.day
      ⟨h1, h2, h3, h4, h5, h6⟩
  · rw [hdir, hdbl, hbt, hspec, hemp, hci]
    show mkBackup bd bt (database_label db) ss ci t e g = .ok b
    unfold mkBackup
    by_cases hg : bt = "globals"
    · rw [if_pos hg, if_neg hbd, mkBackupBody_db_idem]
      have := mkBackup_ok_body hok
      unfold mkBackup at hok
      rw [if_pos hg, if_neg hbd] at hok
      exact hok
    · rw [if_neg hg]
      rw [if_neg (by
        push_neg
        exact ⟨hbd, (backup_type_chars bt hbtv).2.2.2,
          database_label_ne_empty db⟩)]
      rw [mkBackupBody_db_idem]
      exact mkBackup_ok_body hok

/-- The per-tier keep count `expire` selects, as the claims state it:
1 for globals regardless of configuration, otherwise the configured count
of the tier. -/
def keepOf (bt : String) (days weeks months : Nat) : Nat :=
  if bt = "globals" then 1
  else if bt = "daily" then days
  else if bt = "weekly" then weeks
  else months

/-- `expire`, computed: rebuild the mask, glob, sort, and unlink all but
the last `keepOf` matches. -/
theorem expire_eq {bd bt db : String} {ss : SchemaSpec} {ci : ConnInfo}
    {t : PyDate} {e : Bool} {g : String} {b : Backup}
    (hok : mkBackup bd bt db ss ci t e g = .ok b) (hv : t.Valid)
    (hwf : WellFormed b.toBackupFields)
    (fs : FS) (days weeks months : Nat) :
    expire fs b days weeks months g =
      unlinkAll fs (pySliceUpToNeg (keepOf b.backup_type days weeks months)
        (sorted_files fs (String.mk (posixJoinChars b.backup_dir.data
          (baseFilenameChars (maskedFields b.toBackupFields b.backup_type)))))) := by
  obtain ⟨hdate, hremake⟩ := expire_remake hok hv
  unfold expire
  simp only [hdate, hremake,
    wf_masked_eq b.toBackupFields hwf none (fun t' ht' => by cases ht'),
    Option.getD]
  have hbtv : b.backup_type ∈ BACKUP_TYPES := by
    obtain ⟨_, _, _, _, _, _, hbt, _, _, _, _, hbtv, _⟩ := mkBackup_ok hok
    rw [hbt]
    exact hbtv
  simp only [BACKUP_TYPES, List.mem_cons, List.not_mem_nil, or_false] at hbtv
  rcases hbtv with h | h | h | h <;> simp only [keepOf, h] <;> rfl

/-- C10: a keep count of zero for the identity's tier makes `expire`
delete nothing — Python's `files[:-0]` slice is `files[:0] = []`, so a
zero keep count behaves as "keep everything". -/
theorem c10_zero_keep_deletes_nothing {bd bt db : String} {ss : SchemaSpec}
    {ci : ConnInfo} {t : PyDate} {e : Bool} {g : String} {b : Backup}
    (hok : mkBackup bd bt db ss ci t e g = .ok b) (hv : t.Valid)
    (hwf : WellFormed b.toBackupFields) (fs : FS)
    (days weeks months : Nat)
    (hz : (b.backup_type = "daily" ∧ days = 0) ∨
      (b.backup_type = "weekly" ∧ weeks = 0) ∨
      (b.backup_type = "monthly" ∧ months = 0)) :
    expire fs b days weeks months g = .ok (fs, []) := by
  rw [expire_eq hok hv hwf fs days weeks months]
  have hkeep : keepOf b.backup_type days weeks months = 0 := by
    rcases hz with ⟨hbt, hzz⟩ | ⟨hbt, hzz⟩ | ⟨hbt, hzz⟩ <;>
      simp [keepOf, hbt, hzz]
  rw [hkeep]
  rfl

/-- C10 witness: a daily identity with `days_to_keep = 0` and a directory
holding three matching daily artifacts: nothing is deleted. -/
theorem c10_witness :
    expire ⟨[("myhost.5432.mydb.public.2016-01-04.daily.pg_dump_Fc", 1),
             ("myhost.5432.mydb.public.2016-01-05.daily.pg_dump_Fc", 2),
             ("myhost.5432.mydb.public.2016-01-06.daily.pg_dump_Fc", 3)]⟩
      ⟨⟨"backups", "myhost", "5432", "mydb", "public", "2016-01-08",
        "daily"⟩, .one "public", ["public"], false, {}⟩
      0 5 12 "myhost" =
      .ok (⟨[("myhost.5432.mydb.public.2016-01-04.daily.pg_dump_Fc", 1),
             ("myhost.5432.mydb.public.2016-01-05.daily.pg_dump_Fc", 2),
             ("myhost.5432.mydb.public.2016-01-06.daily.pg_dump_Fc", 3)]⟩, []) :=
  @c10_zero_keep_deletes_nothing "backups" "daily" "mydb" (.one "public") {}
    ⟨2016, 1, 8⟩ false "myhost"
    ⟨⟨"backups", "myhost", "5432", "mydb", "public", "2016-01-08",
      "daily"⟩, .one "public", ["public"], false, {}⟩
    (by decide) (by decide) (by decide) _ 0 5 12 (Or.inl ⟨rfl, rfl⟩)

/-! ## Order-theoretic facts about the string comparison and the sort -/

theorem lex_cons_inv {α : Type} {r : α → α → Prop} {a b : α}
    {l1 l2 : List α} :
    List.Lex r (a :: l1) (b :: l2) ↔ r a b ∨ (a = b ∧ List.Lex r l1 l2) := by
  constructor
  · intro h
    cases h with
    | cons h => exact Or.inr ⟨rfl, h⟩
    | rel h => exact Or.inl h
  · rintro (h | ⟨rfl, h⟩)
    · exact List.Lex.rel h
    · exact List.Lex.cons h

/-- The boolean comparison agrees with lexicographic order on `List Char`. -/
theorem lexLtB_iff_lex (l1 l2 : List Char) :
    lexLtB l1 l2 = true ↔ List.Lex (· < ·) l1 l2 := by
  induction l1 generalizing l2 with
  | nil =>
    cases l2 with
    | nil =>
      refine iff_of_false (by simp [lexLtB]) ?_
      exact List.Lex.not_nil_right _ _
    | cons b bs =>
      exact iff_of_true (by simp [lexLtB]) List.Lex.nil
  | cons a as ih =>
    cases l2 with
    | nil =>
      refine iff_of_false (by simp [lexLtB]) ?_
      exact List.Lex.not_nil_right _ _
    | cons b bs =>
      by_cases hab : a < b
      · refine iff_of_true (by simp [lexLtB, hab]) (List.Lex.rel hab)
      · by_cases hba : b < a
        · refine iff_of_false (by simp [lexLtB, hab, hba]) ?_
          rw [lex_cons_inv]
          rintro (h | ⟨rfl, h⟩)
          · exact hab h
          · exact hab hba
        · have heq : a = b := le_antisymm (not_lt.mp hba) (not_lt.mp hab)
          subst heq
          rw [show lexLtB (a :: as) (a :: bs) = lexLtB as bs by
            simp [lexLtB]]
          rw [ih bs, lex_cons_inv]
          constructor
          · intro h
            exact Or.inr ⟨rfl, h⟩
          · rintro (h | ⟨-, h⟩)
            · exact absurd h (lt_irrefl a)
            · exact h

/-- The sort comparator is Mathlib's `≤` on `String`. -/
theorem pyLeRel_iff (s t : String) : pyLeRel s t ↔ s ≤ t := by
  unfold pyLeRel
  rw [String.le_iff_toList_le]
  show lexLtB t.data s.data = false ↔ s.data ≤ t.data
  rw [← not_lt]
  constructor
  · intro h hlt
    have : lexLtB t.data s.data = true := (lexLtB_iff_lex t.data s.data).mpr hlt
    rw [h] at this
    cases this
  · intro h
    rcases Bool.eq_false_or_eq_true (lexLtB t.data s.data) with ht | hf
    · exact absurd ((lexLtB_iff_lex t.data s.data).mp ht) h
    · exact hf

instance : IsTotal String pyLeRel :=
  ⟨fun a b => by
    rw [pyLeRel_iff, pyLeRel_iff]
    exact le_total a b⟩

instance : IsTrans String pyLeRel :=
  ⟨fun a b c hab hbc => by
    rw [pyLeRel_iff] at *
    exact le_trans hab hbc⟩

theorem pyLeRel_refl (a : String) : pyLeRel a a := by
  rw [pyLeRel_iff]

theorem sort_files_perm (l : List String) : List.Perm (sort_files l) l :=
  List.perm_insertionSort pyLeRel l

theorem sort_files_sorted (l : List String) :
    List.Sorted pyLeRel (sort_files l) :=
  List.sorted_insertionSort pyLeRel l

/-- In a sorted list every element is bounded by the last one. -/
theorem sorted_le_getLast :
    ∀ (l : List String), List.Sorted pyLeRel l → ∀ x ∈ l, ∀ (hne : l ≠ []),
      pyLeRel x (l.getLast hne)
  | [], _, x, hx, hne => absurd rfl hne
  | [a], _, x, hx, _ => by
    simp only [List.mem_singleton] at hx
    subst hx
    exact pyLeRel_refl x
  | a :: b :: bs, h, x, hx, _ => by
    rw [List.getLast_cons (by simp : b :: bs ≠ [])]
    rcases List.mem_cons.mp hx with rfl | hx'
    · exact List.rel_of_sorted_cons h _ (List.getLast_mem _)
    · exact sorted_le_getLast (b :: bs) h.of_cons x hx' (by simp)

/-- Appending a common front does not change the boolean comparison. -/
theorem lexLtB_append_left (D a b : List Char) :
    lexLtB (D ++ a) (D ++ b) = lexLtB a b := by
  induction D with
  | nil => rfl
  | cons c cs ih =>
    simp only [List.cons_append, lexLtB, if_neg (lt_irrefl c), List.append_eq,
      ih]

/-- `os.path.join` with a fixed head is prepending a fixed prefix. -/
theorem posixJoinChars_exists_prefix (d : List Char) :
    ∃ D, ∀ x, posixJoinChars d x = D ++ x := by
  by_cases hnil : d = []
  · exact ⟨[], fun x => by rw [hnil, posixJoinChars_nil, List.nil_append]⟩
  · by_cases hlast : d.getLast? = some '/'
    · refine ⟨d, fun x => ?_⟩
      unfold posixJoinChars
      rw [if_neg hnil, if_pos hlast]
    · refine ⟨d ++ ['/'], fun x => ?_⟩
      unfold posixJoinChars
      rw [if_neg hnil, if_neg hlast]
      simp

theorem pyLeRel_posixJoin (d : List Char) (a b : String) :
    pyLeRel (String.mk (posixJoinChars d a.data))
      (String.mk (posixJoinChars d b.data)) ↔ pyLeRel a b := by
  obtain ⟨D, hD⟩ := posixJoinChars_exists_prefix d
  unfold pyLeRel
  rw [show (String.mk (posixJoinChars d a.data)).data = posixJoinChars d a.data
    from rfl]
  rw [show (String.mk (posixJoinChars d b.data)).data = posixJoinChars d b.data
    from rfl]
  rw [hD, hD, lexLtB_append_left]

theorem orderedInsert_map_posixJoin (d : List Char) (a : String)
    (l : List String) :
    List.orderedInsert pyLeRel (String.mk (posixJoinChars d a.data))
        (l.map (fun n => String.mk (posixJoinChars d n.data))) =
      (List.orderedInsert pyLeRel a l).map
        (fun n => String.mk (posixJoinChars d n.data)) := by
  induction l with
  | nil => rfl
  | cons b bs ih =>
    simp only [List.map_cons, List.orderedInsert]
    by_cases h : pyLeRel a b
    · rw [if_pos ((pyLeRel_posixJoin d a b).mpr h), if_pos h, List.map_cons,
        List.map_cons]
    · rw [if_neg (fun hc => h ((pyLeRel_posixJoin d a b).mp hc)), if_neg h,
        List.map_cons, ih]

theorem sort_files_map_posixJoin (d : List Char) (l : List String) :
    sort_files (l.map (fun n => String.mk (posixJoinChars d n.data))) =
      (sort_files l).map (fun n => String.mk (posixJoinChars d n.data)) := by
  unfold sort_files
  induction l with
  | nil => rfl
  | cons a as ih =>
    simp only [List.map_cons, List.insertionSort, ih]
    exact orderedInsert_map_posixJoin d a (List.insertionSort pyLeRel as)

/-- `sorted_files` over a joined mask pattern: glob the base names, sort
them, and re-join each under the pattern's directory head. -/
theorem sorted_files_decomp (fs : FS) (d mb : List Char)
    (hgood : d = [] ∨ d.getLast? ≠ some '/') (hmb : '/' ∉ mb) :
    sorted_files fs (String.mk (posixJoinChars d mb)) =
      (sort_files (fs.names.filter (fun n => fnmatchChars mb n.data))).map
        (fun n => String.mk (posixJoinChars d n.data)) := by
  unfold sorted_files
  rw [show (String.mk (posixJoinChars d mb)).data = posixJoinChars d mb
    from rfl]
  rw [dirChars_posixJoin d mb hgood hmb, baseChars_posixJoin d mb hmb]
  exact sort_files_map_posixJoin d _

/-! ## Claim C3: the expiration sweep deletes all but the newest -/

theorem map_fst_filter (l : List (String × Nat)) (p : String → Bool) :
    (l.filter (fun e => p e.1)).map (fun e => e.1) =
      (l.map (fun e => e.1)).filter p := by
  induction l with
  | nil => rfl
  | cons e es ih =>
    by_cases h : p e.1
    · rw [List.filter_cons, if_pos h, List.map_cons, List.map_cons,
        List.filter_cons, if_pos h, ih]
    · rw [List.filter_cons, if_neg h, List.map_cons, List.filter_cons,
        if_neg h, ih]

theorem unlink_join (fs : FS) (d : List Char) (n : String)
    (hs : '/' ∉ n.data) (hmem : n ∈ fs.names) :
    FS.unlink fs (String.mk (posixJoinChars d n.data)) =
      .ok ⟨fs.entries.filter (fun e => !(e.1 = n))⟩ := by
  have hb : String.mk (baseChars (String.mk (posixJoinChars d n.data)).data)
      = n := by
    rw [show (String.mk (posixJoinChars d n.data)).data =
      posixJoinChars d n.data from rfl]
    rw [baseChars_posixJoin d n.data hs, string_mk_data]
  simp only [FS.unlink, hb]
  rw [if_pos hmem]

/-- Unlinking a duplicate-free set of present names removes exactly their
entries, in order. -/
theorem unlinkAll_join (d : List Char) :
    ∀ (ds : List String) (fs : FS),
      (∀ n ∈ ds, n ∈ fs.names) → ds.Nodup → (∀ n ∈ ds, '/' ∉ n.data) →
      unlinkAll fs (ds.map (fun n => String.mk (posixJoinChars d n.data))) =
        .ok (⟨fs.entries.filter (fun e => !(ds.contains e.1))⟩,
          ds.map (fun n => String.mk (posixJoinChars d n.data)))
  | [], fs, _, _, _ => by
    simp only [List.map_nil, unlinkAll]
    have : fs.entries.filter (fun e => !(([] : List String).contains e.1)) =
        fs.entries := List.filter_eq_self.mpr (fun a _ => by simp)
    rw [this]
  | n :: ns, fs, hsub, hnd, hsl => by
    have hstep := unlink_join fs d n (hsl n (by simp)) (hsub n (by simp))
    have hnames : (FS.mk (fs.entries.filter (fun e => !(e.1 = n)))).names =
        fs.names.filter (fun x => !(x = n)) := by
      show (fs.entries.filter (fun e => !(e.1 = n))).map (fun e => e.1) = _
      exact map_fst_filter fs.entries (fun x => !(x = n))
    have hrec := unlinkAll_join d ns ⟨fs.entries.filter (fun e => !(e.1 = n))⟩
      (by
        intro n' hn'
        rw [hnames, List.mem_filter]
        refine ⟨hsub n' (by simp [hn']), ?_⟩
        have : n' ≠ n := by
          intro hh
          subst hh
          exact (List.nodup_cons.mp hnd).1 hn'
        simp [this])
      (List.nodup_cons.mp hnd).2
      (fun n' hn' => hsl n' (by simp [hn']))
    have hcomb : (fs.entries.filter (fun e => !(e.1 = n))).filter
        (fun e => !(ns.contains e.1)) =
        fs.entries.filter (fun e => !((n :: ns).contains e.1)) := by
      rw [List.filter_filter]
      apply List.filter_congr
      intro e _
      simp only [List.contains_cons, Bool.not_or, Bool.and_comm]
      rfl
    simp only [List.map_cons, unlinkAll, hstep, hrec, hcomb]

theorem pySlice_map {α β : Type} (n : Nat) (g : α → β) (l : List α) :
    pySliceUpToNeg n (l.map g) = (pySliceUpToNeg n l).map g := by
  unfold pySliceUpToNeg
  split
  · rfl
  · rw [List.length_map, List.map_take]

/-- C3: for every identity and positive keep count, `expire` deletes
exactly the matched files that are not among the last `keepCount` in
lexicographic (chronological) order, where `keepCount` is 1 for globals
regardless of configuration, `days_to_keep` for daily, `weeks_to_keep`
for weekly and `months_to_keep` for monthly; the `keepCount` most recent
matched files remain. -/
theorem c3_expire_retention {bd bt db : String} {ss : SchemaSpec}
    {ci : ConnInfo} {t : PyDate} {e : Bool} {g : String} {b : Backup}
    (hok : mkBackup bd bt db ss ci t e g = .ok b) (hv : t.Valid)
    (hwf : WellFormed b.toBackupFields) (fs : FS) (days weeks months : Nat)
    (hfs1 : ∀ n ∈ fs.names, '/' ∉ n.data) (hfs2 : fs.names.Nodup) :
    ∀ keep matched sortedM doomed kept,
      keep = keepOf b.backup_type days weeks months →
      matched = fs.names.filter (fun n => fnmatchChars
        (baseFilenameChars (maskedFields b.toBackupFields b.backup_type))
        n.data) →
      sortedM = sort_files matched →
      doomed = sortedM.take (sortedM.length - keep) →
      kept = sortedM.drop (sortedM.length - keep) →
      0 < keep →
      List.Perm sortedM matched ∧ List.Sorted pyLeRel sortedM ∧
      (∀ x ∈ doomed, ∀ y ∈ kept, pyLeRel x y) ∧
      expire fs b days weeks months g =
        .ok (⟨fs.entries.filter (fun en => !(doomed.contains en.1))⟩,
          doomed.map (fun n => String.mk
            (posixJoinChars b.backup_dir.data n.data))) ∧
      List.Perm (((fs.entries.filter (fun en => !(doomed.contains en.1))).map
          (fun en => en.1)).filter (fun n => fnmatchChars
            (baseFilenameChars (maskedFields b.toBackupFields b.backup_type))
            n.data))
        kept ∧
      kept.length = min keep matched.length := by
  intro keep matched sortedM doomed kept hkeq hmeq hseq hdeq hkpeq hpos
  obtain ⟨w1, w2, w3, w4, w5, w6, w7, w8, w9, w10, w11, w12, w13⟩ := hwf
  have hstar : '/' ∉ (maskedFields b.toBackupFields b.backup_type).date.data := by
    show ('/' : Char) ∉ ("*" : String).data
    decide
  have hmb : '/' ∉ baseFilenameChars (maskedFields b.toBackupFields
      b.backup_type) :=
    baseFilenameChars_no_slash (maskedFields b.toBackupFields b.backup_type)
      w6 w7 w8 w9 hstar (backup_type_chars _ w12).2.1
  have hperm : List.Perm sortedM matched := by
    rw [hseq]
    exact sort_files_perm matched
  have hsort : List.Sorted pyLeRel sortedM := by
    rw [hseq]
    exact sort_files_sorted matched
  have hmnodup : matched.Nodup := by
    rw [hmeq]
    exact hfs2.filter _
  have hsnodup : sortedM.Nodup := (hperm.nodup_iff).mpr hmnodup
  have hdsub : ∀ n ∈ doomed, n ∈ fs.names := by
    intro n hn
    have h1 : n ∈ sortedM := by
      rw [hdeq] at hn
      exact List.mem_of_mem_take hn
    have h2 : n ∈ matched := hperm.mem_iff.mp h1
    rw [hmeq] at h2
    exact (List.mem_filter.mp h2).1
  have hdnodup : doomed.Nodup := by
    rw [hdeq]
    exact hsnodup.sublist (List.take_sublist _ _)
  have hdslash : ∀ n ∈ doomed, '/' ∉ n.data := fun n hn => hfs1 n (hdsub n hn)
  have hdisj : ∀ y ∈ kept, ¬ y ∈ doomed := by
    have hsplit : doomed ++ kept = sortedM := by
      rw [hdeq, hkpeq]
      exact List.take_append_drop _ _
    have : (doomed ++ kept).Nodup := by rw [hsplit]; exact hsnodup
    have hd := (List.nodup_append.mp this).2.2
    intro y hy hyd
    exact hd hyd hy
  have hordered : ∀ x ∈ doomed, ∀ y ∈ kept, pyLeRel x y := by
    have hsplit : doomed ++ kept = sortedM := by
      rw [hdeq, hkpeq]
      exact List.take_append_drop _ _
    have hs2 : List.Sorted pyLeRel (doomed ++ kept) := by
      rw [hsplit]
      exact hsort
    exact (List.pairwise_append.mp hs2).2.2
  have hexp : expire fs b days weeks months g =
      .ok (⟨fs.entries.filter (fun en => !(doomed.contains en.1))⟩,
        doomed.map (fun n => String.mk
          (posixJoinChars b.backup_dir.data n.data))) := by
    rw [expire_eq hok hv ⟨w1, w2, w3, w4, w5, w6, w7, w8, w9, w10, w11, w12,
      w13⟩ fs days weeks months]
    rw [sorted_files_decomp fs b.backup_dir.data _ w13 hmb]
    rw [pySlice_map]
    have hslice : pySliceUpToNeg (keepOf b.backup_type days weeks months)
        (sort_files (fs.names.filter (fun n => fnmatchChars
          (baseFilenameChars (maskedFields b.toBackupFields b.backup_type))
          n.data))) = doomed := by
      unfold pySliceUpToNeg
      rw [if_neg (by omega), hdeq, hseq, hmeq, hkeq]
    rw [hslice]
    exact unlinkAll_join b.backup_dir.data doomed fs hdsub hdnodup hdslash
  refine ⟨hperm, hsort, hordered, hexp, ?_, ?_⟩
  · have hname2 : ((fs.entries.filter (fun en => !(doomed.contains en.1))).map
        (fun en => en.1)) = fs.names.filter (fun x => !(doomed.contains x)) :=
      map_fst_filter fs.entries (fun x => !(doomed.contains x))
    rw [hname2]
    have hswap : (fs.names.filter (fun x => !(doomed.contains x))).filter
        (fun n => fnmatchChars (baseFilenameChars (maskedFields
          b.toBackupFields b.backup_type)) n.data) =
        matched.filter (fun n => !(doomed.contains n)) := by
      rw [List.filter_filter, hmeq, List.filter_filter]
      apply List.filter_congr
      intro x _
      rw [Bool.and_comm]
    rw [hswap]
    have h1 : List.Perm (matched.filter (fun n => !(doomed.contains n)))
        (sortedM.filter (fun n => !(doomed.contains n))) :=
      (hperm.filter _).symm
    have hsplit : doomed ++ kept = sortedM := by
      rw [hdeq, hkpeq]
      exact List.take_append_drop _ _
    have h2 : sortedM.filter (fun n => !(doomed.contains n)) = kept := by
      rw [← hsplit, List.filter_append]
      have hleft : doomed.filter (fun n => !(doomed.contains n)) = [] := by
        rw [List.filter_eq_nil_iff]
        intro a ha
        simp
        exact ha
      have hright : kept.filter (fun n => !(doomed.contains n)) = kept := by
        apply List.filter_eq_self.mpr
        intro a ha
        have := hdisj a ha
        simp only [Bool.not_eq_true']
        rcases Bool.eq_false_or_eq_true (doomed.contains a) with hc | hc
        · exact absurd (List.elem_iff.mp hc) this
        · exact hc
      rw [hleft, hright, List.nil_append]
    rw [← h2]
    exact h1
  · rw [hkpeq, List.length_drop]
    have := hperm.length_eq
    omega

/-- C3 witness: five daily artifacts, `days_to_keep = 3`: the two oldest
are deleted and the three most recent remain. -/
theorem c3_witness :
    expire ⟨[("myhost.5432.mydb.public.2016-01-01.daily.pg_dump_Fc", 1),
      ("myhost.5432.mydb.public.2016-01-02.daily.pg_dump_Fc", 2),
      ("myhost.5432.mydb.public.2016-01-03.daily.pg_dump_Fc", 3),
      ("myhost.5432.mydb.public.2016-01-04.daily.pg_dump_Fc", 4),
      ("myhost.5432.mydb.public.2016-01-05.daily.pg_dump_Fc", 5)]⟩
      ⟨⟨"backups", "myhost", "5432", "mydb", "public", "2016-01-08",
        "daily"⟩, .one "public", ["public"], false, {}⟩ 3 5 12 "myhost" =
      .ok (⟨[("myhost.5432.mydb.public.2016-01-03.daily.pg_dump_Fc", 3),
        ("myhost.5432.mydb.public.2016-01-04.daily.pg_dump_Fc", 4),
        ("myhost.5432.mydb.public.2016-01-05.daily.pg_dump_Fc", 5)]⟩,
        ["backups/myhost.5432.mydb.public.2016-01-01.daily.pg_dump_Fc",
         "backups/myhost.5432.mydb.public.2016-01-02.daily.pg_dump_Fc"]) :=
  (@c3_expire_retention "backups" "daily" "mydb" (.one "public") {}
    ⟨2016, 1, 8⟩ false "myhost"
    ⟨⟨"backups", "myhost", "5432", "mydb", "public", "2016-01-08",
      "daily"⟩, .one "public", ["public"], false, {}⟩
    (by decide) (by decide) (by decide)
    ⟨[("myhost.5432.mydb.public.2016-01-01.daily.pg_dump_Fc", 1),
      ("myhost.5432.mydb.public.2016-01-02.daily.pg_dump_Fc", 2),
      ("myhost.5432.mydb.public.2016-01-03.daily.pg_dump_Fc", 3),
      ("myhost.5432.mydb.public.2016-01-04.daily.pg_dump_Fc", 4),
      ("myhost.5432.mydb.public.2016-01-05.daily.pg_dump_Fc", 5)]⟩ 3 5 12
    (by decide) (by decide)
    3
    ["myhost.5432.mydb.public.2016-01-01.daily.pg_dump_Fc",
     "myhost.5432.mydb.public.2016-01-02.daily.pg_dump_Fc",
     "myhost.5432.mydb.public.2016-01-03.daily.pg_dump_Fc",
     "myhost.5432.mydb.public.2016-01-04.daily.pg_dump_Fc",
     "myhost.5432.mydb.public.2016-01-05.daily.pg_dump_Fc"]
    ["myhost.5432.mydb.public.2016-01-01.daily.pg_dump_Fc",
     "myhost.5432.mydb.public.2016-01-02.daily.pg_dump_Fc",
     "myhost.5432.mydb.public.2016-01-03.daily.pg_dump_Fc",
     "myhost.5432.mydb.public.2016-01-04.daily.pg_dump_Fc",
     "myhost.5432.mydb.public.2016-01-05.daily.pg_dump_Fc"]
    ["myhost.5432.mydb.public.2016-01-01.daily.pg_dump_Fc",
     "myhost.5432.mydb.public.2016-01-02.daily.pg_dump_Fc"]
    ["myhost.5432.mydb.public.2016-01-03.daily.pg_dump_Fc",
     "myhost.5432.mydb.public.2016-01-04.daily.pg_dump_Fc",
     "myhost.5432.mydb.public.2016-01-05.daily.pg_dump_Fc"]
    (by decide) (by decide) (by decide) (by decide) (by decide)
    (by decide)).2.2.2.1

/-! ## Promotion groundwork (claims C2, C4, C5) -/

theorem week_number_of_strftime (t : PyDate) (hv : t.Valid) :
    week_number_of t.strftime = .ok (isocalendarYW t.year t.month t.day) := by
  unfold week_number_of
  rw [show parseDateStr t.strftime = some (t.year, t.month, t.day) from
    parseDateStr_strftime t hv]

theorem charMatch_self (c : Char) : charMatch c c = true := by
  unfold charMatch
  split
  · rfl
  · simp

theorem litPre_self_append (A r : List Char) : litPre A (A ++ r) = some r := by
  induction A with
  | nil => rfl
  | cons c cs ih =>
    rw [List.cons_append]
    simp only [litPre, charMatch_self, if_pos]
    exact ih

theorem litMatch_self (A : List Char) : litMatch A A = true := by
  induction A with
  | nil => rfl
  | cons c cs ih =>
    simp only [litMatch, charMatch_self, Bool.true_and]
    exact ih

/-- A pattern `A*B` (with literal `A` and `B`) matches `A ++ mid ++ B` for
any middle part. -/
theorem fnmatch_star_mid (A B mid : List Char) (hA : '*' ∉ A)
    (hB : '*' ∉ B) :
    fnmatchChars (A ++ '*' :: B) (A ++ mid ++ B) = true := by
  unfold fnmatchChars
  rw [splitSep_append_sep '*' A _ hA, splitSep_no_sep '*' B hB]
  rw [show A ++ mid ++ B = A ++ (mid ++ B) from by simp]
  simp only [litPre_self_append]
  show matchMids [B] (mid ++ B) = true
  unfold matchMids
  have hlen : (mid ++ B).length - B.length = mid.length := by
    simp
  rw [hlen, List.drop_left, litMatch_self]
  simp

/-- The seven dot-joined fields, split around the date component. -/
theorem joinSep7_decomp (a b c d e f g' : List Char) :
    joinSep '.' [a, b, c, d, e, f, g'] =
      (a ++ '.' :: (b ++ '.' :: (c ++ '.' :: (d ++ ['.'])))) ++ e ++
        ('.' :: (f ++ '.' :: g')) := by
  simp [joinSep, List.append_assoc]

/-- The canonical base name of an identity matches its own date-masked
pattern (for the same tier), provided no label contains `*`. -/
theorem fnmatch_mask_self (f : BackupFields)
    (h1 : '*' ∉ f.hostname_label.data) (h2 : '*' ∉ f.port_label.data)
    (h3 : '*' ∉ f.database_label.data) (h4 : '*' ∉ f.schema_label.data)
    (h5 : '*' ∉ f.backup_type.data) :
    fnmatchChars (baseFilenameChars (maskedFields f f.backup_type))
      (baseFilenameChars f) = true := by
  have hmask : baseFilenameChars (maskedFields f f.backup_type) =
      (f.hostname_label.data ++ '.' :: (f.port_label.data ++ '.' ::
        (f.database_label.data ++ '.' :: (f.schema_label.data ++ ['.'])))) ++
      '*' :: ('.' :: (f.backup_type.data ++ '.' ::
        (suffixFor f.backup_type).data)) := by
    show joinSep '.' [f.hostname_label.data, f.port_label.data,
      f.database_label.data, f.schema_label.data, ['*'], f.backup_type.data,
      (suffixFor f.backup_type).data] = _
    rw [joinSep7_decomp]
    simp
  have hbase : baseFilenameChars f =
      (f.hostname_label.data ++ '.' :: (f.port_label.data ++ '.' ::
        (f.database_label.data ++ '.' :: (f.schema_label.data ++ ['.'])))) ++
      f.date.data ++
      ('.' :: (f.backup_type.data ++ '.' :: (suffixFor f.backup_type).data)) :=
    joinSep7_decomp _ _ _ _ _ _ _
  rw [hmask, hbase]
  apply fnmatch_star_mid
  · intro hmem
    rcases List.mem_append.mp hmem with h | h
    · exact h1 h
    · rcases List.mem_cons.mp h with h | h
      · exact absurd h (by decide)
      · rcases List.mem_append.mp h with h | h
        · exact h2 h
        · rcases List.mem_cons.mp h with h | h
          · exact absurd h (by decide)
          · rcases List.mem_append.mp h with h | h
            · exact h3 h
            · rcases List.mem_cons.mp h with h | h
              · exact absurd h (by decide)
              · rcases List.mem_append.mp h with h | h
                · exact h4 h
                · exact absurd h (by decide)
  · intro hmem
    rcases List.mem_cons.mp hmem with h | h
    · exact absurd h (by decide)
    · rcases List.mem_append.mp h with h | h
      · exact h5 h
      · rcases List.mem_cons.mp h with h | h
        · exact absurd h (by decide)
        · rcases suffixFor_eq f.backup_type with hs | hs <;> rw [hs] at h <;>
            exact absurd h (by decide)

theorem fs_link_eq (fs : FS) (src dst : String) (i : Nat)
    (hsrc : fs.inodeOf (String.mk (baseChars src.data)) = some i)
    (hdst : String.mk (baseChars dst.data) ∉ fs.names) :
    fs.link src dst =
      .ok ⟨fs.entries ++ [(String.mk (baseChars dst.data), i)]⟩ := by
  simp only [FS.link, hsrc]
  rw [if_neg hdst]

theorem inodeOf_isSome (fs : FS) (n : String) (h : n ∈ fs.names) :
    ∃ i, fs.inodeOf n = some i := by
  obtain ⟨en, hen, heq⟩ := List.mem_map.mp h
  have hfind : ∃ x, fs.entries.find? (fun e => e.1 = n) = some x := by
    rcases hx : fs.entries.find? (fun e => e.1 = n) with _ | x
    · exfalso
      have := List.find?_eq_none.mp hx en hen
      simp [heq] at this
    · exact ⟨x, hx⟩
  obtain ⟨x, hx⟩ := hfind
  exact ⟨x.2, by unfold FS.inodeOf; rw [hx]; rfl⟩

theorem sorted_files_sorted (fs : FS) (p : String) :
    List.Sorted pyLeRel (sorted_files fs p) := by
  unfold sorted_files
  exact sort_files_sorted _

/-! ## Claim C2: weekly promotion hard-links the newest daily -/

/-- C2 (amended): for a well-formed weekly identity whose weekly file for
today is not already present, if no weekly sibling exists (or the most
recent one's ISO (year, week) differs from today's) and at least one
daily sibling exists, `do_promotion` creates the weekly file as a hard
link (same inode) to the lexicographically greatest daily sibling, and
performs no other action — in particular no dump. -/
theorem c2_weekly_promotion {bd db : String} {ss : SchemaSpec}
    {ci : ConnInfo} {t : PyDate} {e : Bool} {g : String} {b : Backup}
    (hok : mkBackup bd "weekly" db ss ci t e g = .ok b) (hv : t.Valid)
    (hwf : WellFormed b.toBackupFields) (fs : FS)
    (hfs1 : ∀ n ∈ fs.names, '/' ∉ n.data) :
    ∀ wn maskW maskD dst dailyM,
      week_number_of b.date = .ok wn →
      filename_with_date_masked b.toBackupFields none = .ok maskW →
      filename_with_date_masked b.toBackupFields (some "daily") = .ok maskD →
      b.toBackupFields.filename = .ok dst →
      dailyM = sorted_files fs maskD →
      ((sorted_files fs maskW).getLast? = none ∨
        (∃ last pf lwn, (sorted_files fs maskW).getLast? = some last ∧
          parseFilename last = .ok pf ∧ week_number_of pf.date = .ok lwn ∧
          lwn ≠ wn)) →
      ∀ (hne : dailyM ≠ []),
      String.mk (baseFilenameChars b.toBackupFields) ∉ fs.names →
      ∃ i,
        (∀ x ∈ dailyM, pyLeRel x (dailyM.getLast hne)) ∧
        fs.inodeOf (String.mk (baseChars (dailyM.getLast hne).data)) =
          some i ∧
        do_promotion fs b.toBackupFields =
          .ok (⟨fs.entries ++
              [(String.mk (baseFilenameChars b.toBackupFields), i)]⟩,
            [.link (dailyM.getLast hne) dst]) := by
  intro wn maskW maskD dst dailyM hwn hmW hmD hdst hdM hreq hne hnodst
  obtain ⟨w1, w2, w3, w4, w5, w6, w7, w8, w9, w10, w11, w12, w13⟩ := hwf
  have hbt : b.backup_type = "weekly" := by
    obtain ⟨_, _, _, _, _, _, hbt, _⟩ := mkBackup_ok hok
    exact hbt
  -- the daily mask is the canonical date-masked pattern
  have hmD' : maskD = String.mk (posixJoinChars b.backup_dir.data
      (baseFilenameChars (maskedFields b.toBackupFields "daily"))) := by
    have := wf_masked_eq b.toBackupFields ⟨w1, w2, w3, w4, w5, w6, w7, w8, w9,
      w10, w11, w12, w13⟩ (some "daily") (by
        intro t' ht'
        cases ht'
        decide)
    rw [hmD] at this
    exact (Except.ok.injEq _ _).mp this
  have hstarD : '/' ∉ (maskedFields b.toBackupFields "daily").date.data := by
    show ('/' : Char) ∉ ("*" : String).data
    decide
  have hbtD : '/' ∉ (maskedFields b.toBackupFields "daily").backup_type.data := by
    show ('/' : Char) ∉ ("daily" : String).data
    decide
  have hmbD : '/' ∉ baseFilenameChars (maskedFields b.toBackupFields
      "daily") :=
    baseFilenameChars_no_slash (maskedFields b.toBackupFields "daily")
      w6 w7 w8 w9 hstarD hbtD
  -- decompose the sorted daily siblings
  have hdecomp : sorted_files fs maskD =
      (sort_files (fs.names.filter (fun n => fnmatchChars
        (baseFilenameChars (maskedFields b.toBackupFields "daily")) n.data))).map
        (fun n => String.mk (posixJoinChars b.backup_dir.data n.data)) := by
    rw [hmD']
    exact sorted_files_decomp fs b.backup_dir.data _ w13 hmbD
  have hsortedD : List.Sorted pyLeRel dailyM := by
    rw [hdM]
    exact sorted_files_sorted fs maskD
  have hmax : ∀ x ∈ dailyM, pyLeRel x (dailyM.getLast hne) :=
    fun x hx => sorted_le_getLast dailyM hsortedD x hx hne
  -- the greatest daily sibling is a listed name joined under the directory
  have hMne : fs.names.filter (fun n => fnmatchChars
      (baseFilenameChars (maskedFields b.toBackupFields "daily")) n.data)
      ≠ [] := by
    intro hnil
    rw [hdM, hdecomp, hnil] at hne
    simp [sort_files] at hne
  have hsortMne : sort_files (fs.names.filter (fun n => fnmatchChars
      (baseFilenameChars (maskedFields b.toBackupFields "daily")) n.data))
      ≠ [] := by
    intro hnil
    have hperm := sort_files_perm (fs.names.filter (fun n => fnmatchChars
      (baseFilenameChars (maskedFields b.toBackupFields "daily")) n.data))
    rw [hnil] at hperm
    exact hMne hperm.symm.eq_nil
  have hlastmap : dailyM.getLast hne = String.mk (posixJoinChars
      b.backup_dir.data ((sort_files (fs.names.filter (fun n => fnmatchChars
        (baseFilenameChars (maskedFields b.toBackupFields "daily"))
        n.data))).getLast hsortMne).data) := by
    have h1 : dailyM.getLast? = some (dailyM.getLast hne) :=
      List.getLast?_eq_getLast dailyM hne
    have h2 : dailyM.getLast? = ((sort_files (fs.names.filter
        (fun n => fnmatchChars (baseFilenameChars (maskedFields
          b.toBackupFields "daily")) n.data))).getLast?).map
        (fun n => String.mk (posixJoinChars b.backup_dir.data n.data)) := by
      rw [hdM, hdecomp]
      exact List.getLast?_map
        (fun n => String.mk (posixJoinChars b.backup_dir.data n.data))
        (sort_files (fs.names.filter (fun n => fnmatchChars
          (baseFilenameChars (maskedFields b.toBackupFields "daily"))
          n.data)))
    rw [h2, List.getLast?_eq_getLast _ hsortMne] at h1
    simpa using h1.symm
  set nmax := (sort_files (fs.names.filter (fun n => fnmatchChars
    (baseFilenameChars (maskedFields b.toBackupFields "daily"))
    n.data))).getLast hsortMne with hnmax
  have hnmem : nmax ∈ fs.names := by
    have h1 : nmax ∈ sort_files _ := List.getLast_mem hsortMne
    have h2 := (sort_files_perm _).mem_iff.mp h1
    exact (List.mem_filter.mp h2).1
  have hnslash : '/' ∉ nmax.data := hfs1 nmax hnmem
  have hbase : String.mk (baseChars (dailyM.getLast hne).data) = nmax := by
    rw [hlastmap]
    rw [show (String.mk (posixJoinChars b.backup_dir.data nmax.data)).data =
      posixJoinChars b.backup_dir.data nmax.data from rfl]
    rw [baseChars_posixJoin _ _ hnslash, string_mk_data]
  obtain ⟨i, hi⟩ := inodeOf_isSome fs nmax hnmem
  refine ⟨i, hmax, by rw [hbase]; exact hi, ?_⟩
  -- the destination path and its base name
  have hdst' : dst = String.mk (posixJoinChars b.backup_dir.data
      (baseFilenameChars b.toBackupFields)) := by
    have := wf_filename_ok b.toBackupFields ⟨w1, w2, w3, w4, w5, w6, w7, w8,
      w9, w10, w11, w12, w13⟩
    rw [hdst] at this
    exact (Except.ok.injEq _ _).mp this
  have hslashbase : '/' ∉ baseFilenameChars b.toBackupFields :=
    baseFilenameChars_no_slash b.toBackupFields w6 w7 w8 w9 w10
      (backup_type_chars _ w12).2.1
  have hdstbase : String.mk (baseChars dst.data) =
      String.mk (baseFilenameChars b.toBackupFields) := by
    rw [hdst']
    rw [show (String.mk (posixJoinChars b.backup_dir.data
      (baseFilenameChars b.toBackupFields))).data =
      posixJoinChars b.backup_dir.data (baseFilenameChars b.toBackupFields)
      from rfl]
    rw [baseChars_posixJoin _ _ hslashbase]
  have hlink : fs.link (dailyM.getLast hne) dst =
      .ok ⟨fs.entries ++
        [(String.mk (baseFilenameChars b.toBackupFields), i)]⟩ := by
    have := fs_link_eq fs (dailyM.getLast hne) dst i
      (by rw [hbase]; exact hi) (by rw [hdstbase]; exact hnodst)
    rw [hdstbase] at this
    exact this
  -- walk the promotion branches
  unfold do_promotion
  rw [if_pos hbt]
  rcases hreq with hnone | ⟨last, pf, lwn, hlast, hpf, hlwn, hner⟩
  · simp only [hwn, hmW, hnone, hmD, ← hdM,
      List.getLast?_eq_getLast dailyM hne, hdst, hlink]
    rw [if_pos trivial]
  · simp only [hwn, hmW, hlast, hpf, hlwn, if_neg hner, hmD, ← hdM,
      List.getLast?_eq_getLast dailyM hne, hdst, hlink]
    rw [if_pos trivial]

/-- C2 counterexample: the original claim omits the requirement that
today's weekly file not already be present.  Here the directory holds a
weekly file whose name equals today's weekly filename, plus a later weekly
from a different ISO week (so the most recent weekly's (year, week)
differs from today's and promotion is attempted) and a daily sibling; yet
`do_promotion` does not create the link — `os.link` fails because the
destination already exists. -/
theorem c2_counterexample :
    mkBackup "backups" "weekly" "mydb" (.one "public") {} ⟨2016, 1, 8⟩ false
        "myhost" =
      .ok ⟨⟨"backups", "myhost", "5432", "mydb", "public", "2016-01-08",
        "weekly"⟩, .one "public", ["public"], false, {}⟩ ∧
    week_number_of "2016-01-08" = .ok (2016, 1) ∧
    filename_with_date_masked ⟨"backups", "myhost", "5432", "mydb", "public",
        "2016-01-08", "weekly"⟩ none =
      .ok "backups/myhost.5432.mydb.public.*.weekly.pg_dump_Fc" ∧
    (sorted_files
        ⟨[("myhost.5432.mydb.public.2016-01-08.weekly.pg_dump_Fc", 1),
          ("myhost.5432.mydb.public.2016-02-01.weekly.pg_dump_Fc", 2),
          ("myhost.5432.mydb.public.2016-01-08.daily.pg_dump_Fc", 3)]⟩
        "backups/myhost.5432.mydb.public.*.weekly.pg_dump_Fc").getLast? =
      some "backups/myhost.5432.mydb.public.2016-02-01.weekly.pg_dump_Fc" ∧
    (∃ pf, parseFilename
        "backups/myhost.5432.mydb.public.2016-02-01.weekly.pg_dump_Fc" =
          .ok pf ∧
      week_number_of pf.date = .ok (2016, 5)) ∧
    (2016, 5) ≠ ((2016, 1) : Int × Int) ∧
    sorted_files
        ⟨[("myhost.5432.mydb.public.2016-01-08.weekly.pg_dump_Fc", 1),
          ("myhost.5432.mydb.public.2016-02-01.weekly.pg_dump_Fc", 2),
          ("myhost.5432.mydb.public.2016-01-08.daily.pg_dump_Fc", 3)]⟩
        "backups/myhost.5432.mydb.public.*.daily.pg_dump_Fc" =
      ["backups/myhost.5432.mydb.public.2016-01-08.daily.pg_dump_Fc"] ∧
    do_promotion
        ⟨[("myhost.5432.mydb.public.2016-01-08.weekly.pg_dump_Fc", 1),
          ("myhost.5432.mydb.public.2016-02-01.weekly.pg_dump_Fc", 2),
          ("myhost.5432.mydb.public.2016-01-08.daily.pg_dump_Fc", 3)]⟩
        ⟨"backups", "myhost", "5432", "mydb", "public", "2016-01-08",
          "weekly"⟩ =
      .error (.fileExistsError
        "backups/myhost.5432.mydb.public.2016-01-08.weekly.pg_dump_Fc") := by
  refine ⟨by decide, by decide, by decide, by decide,
    ⟨⟨"backups", "myhost", "5432", "mydb", "public", "2016-02-01",
      "weekly"⟩, by decide, by decide⟩, by decide, by decide, by decide⟩

/-- C2 witness: three daily artifacts for 2016-01-04/05/08 (ISO week 1 of
2016) and no weekly artifact: requesting the weekly promotion on
2016-01-08 hard-links the weekly path to the lexicographically greatest
daily (inode shared) and performs no other action. -/
theorem c2_witness :
    ∃ i,
      (∀ x ∈ (["backups/myhost.5432.mydb.public.2016-01-04.daily.pg_dump_Fc",
          "backups/myhost.5432.mydb.public.2016-01-05.daily.pg_dump_Fc",
          "backups/myhost.5432.mydb.public.2016-01-08.daily.pg_dump_Fc"] :
            List String),
        pyLeRel x
          "backups/myhost.5432.mydb.public.2016-01-08.daily.pg_dump_Fc") ∧
      FS.inodeOf
          ⟨[("myhost.5432.mydb.public.2016-01-04.daily.pg_dump_Fc", 1),
            ("myhost.5432.mydb.public.2016-01-05.daily.pg_dump_Fc", 2),
            ("myhost.5432.mydb.public.2016-01-08.daily.pg_dump_Fc", 3)]⟩
          "myhost.5432.mydb.public.2016-01-08.daily.pg_dump_Fc" = some i ∧
      do_promotion
          ⟨[("myhost.5432.mydb.public.2016-01-04.daily.pg_dump_Fc", 1),
            ("myhost.5432.mydb.public.2016-01-05.daily.pg_dump_Fc", 2),
            ("myhost.5432.mydb.public.2016-01-08.daily.pg_dump_Fc", 3)]⟩
          ⟨"backups", "myhost", "5432", "mydb", "public", "2016-01-08",
            "weekly"⟩ =
        .ok (⟨[("myhost.5432.mydb.public.2016-01-04.daily.pg_dump_Fc", 1),
              ("myhost.5432.mydb.public.2016-01-05.daily.pg_dump_Fc", 2),
              ("myhost.5432.mydb.public.2016-01-08.daily.pg_dump_Fc", 3),
              ("myhost.5432.mydb.public.2016-01-08.weekly.pg_dump_Fc", i)]⟩,
          [.link
            "backups/myhost.5432.mydb.public.2016-01-08.daily.pg_dump_Fc"
            "backups/myhost.5432.mydb.public.2016-01-08.weekly.pg_dump_Fc"]) :=
  @c2_weekly_promotion "backups" "mydb" (.one "public") {} ⟨2016, 1, 8⟩ false
    "myhost"
    ⟨⟨"backups", "myhost", "5432", "mydb", "public", "2016-01-08",
      "weekly"⟩, .one "public", ["public"], false, {}⟩
    (by decide) (by decide) (by decide)
    ⟨[("myhost.5432.mydb.public.2016-01-04.daily.pg_dump_Fc", 1),
      ("myhost.5432.mydb.public.2016-01-05.daily.pg_dump_Fc", 2),
      ("myhost.5432.mydb.public.2016-01-08.daily.pg_dump_Fc", 3)]⟩
    (by decide)
    (2016, 1)
    "backups/myhost.5432.mydb.public.*.weekly.pg_dump_Fc"
    "backups/myhost.5432.mydb.public.*.daily.pg_dump_Fc"
    "backups/myhost.5432.mydb.public.2016-01-08.weekly.pg_dump_Fc"
    ["backups/myhost.5432.mydb.public.2016-01-04.daily.pg_dump_Fc",
     "backups/myhost.5432.mydb.public.2016-01-05.daily.pg_dump_Fc",
     "backups/myhost.5432.mydb.public.2016-01-08.daily.pg_dump_Fc"]
    (by decide) (by decide) (by decide) (by decide) (by decide)
    (Or.inl (by decide)) (by decide) (by decide)

/-! ## Claim C4: promotion with no daily source fails fatally -/

/-- C4: for a weekly identity with the daily tier enabled
(`days_to_keep` nonzero, so `has_promotable_more_granular_backups` holds)
and promotion required (no weekly sibling, or the most recent one from a
different ISO week), if zero daily siblings match the daily mask then the
whole backup operation fails with the promotion runtime error — it does
not fall back to a fresh dump (no `dump` action is produced). -/
theorem c4_missing_daily_fatal {bd db : String} {ss : SchemaSpec}
    {ci : ConnInfo} {t : PyDate} {e : Bool} {g : String} {b : Backup}
    (hok : mkBackup bd "weekly" db ss ci t e g = .ok b) (fs : FS)
    (days weeks months : Nat) (ghn : String) (hd : days ≠ 0) :
    ∀ wn maskW maskD,
      week_number_of b.date = .ok wn →
      filename_with_date_masked b.toBackupFields none = .ok maskW →
      filename_with_date_masked b.toBackupFields (some "daily") = .ok maskD →
      ((sorted_files fs maskW).getLast? = none ∨
        (∃ last pf lwn, (sorted_files fs maskW).getLast? = some last ∧
          parseFilename last = .ok pf ∧ week_number_of pf.date = .ok lwn ∧
          lwn ≠ wn)) →
      sorted_files fs maskD = [] →
      has_promotable_more_granular_backups b.toBackupFields days weeks
        = true ∧
      Backup.backup b fs days weeks months ghn =
        .error (.runtimeError
          ("Expected daily backup(s) matching " ++ maskD)) := by
  intro wn maskW maskD hwn hmW hmD hreq hempty
  have hbt : b.backup_type = "weekly" := by
    obtain ⟨_, _, _, _, _, _, hbt, _⟩ := mkBackup_ok hok
    exact hbt
  have hprom : has_promotable_more_granular_backups b.toBackupFields days
      weeks = true := by
    unfold has_promotable_more_granular_backups
    rw [if_pos hbt]
    exact decide_eq_true hd
  refine ⟨hprom, ?_⟩
  have hnoneD : (sorted_files fs maskD).getLast? = none := by
    rw [hempty]
    rfl
  unfold Backup.backup
  rw [if_pos hprom]
  unfold do_promotion
  rw [if_pos hbt]
  rcases hreq with hnone | ⟨last, pf, lwn, hlast, hpf, hlwn, hner⟩
  · simp only [hwn, hmW, hnone, hmD, hnoneD]
    rw [if_pos trivial]
  · simp only [hwn, hmW, hlast, hpf, hlwn, if_neg hner, hmD, hnoneD]
    rw [if_pos trivial]

/-- C4 witness: a weekly identity, `days_to_keep = 3`, an empty backup
directory: the backup operation fails with the promotion runtime error
naming the daily mask, and no dump is attempted. -/
theorem c4_witness :
    has_promotable_more_granular_backups
      ⟨"backups", "myhost", "5432", "mydb", "public", "2016-01-08",
        "weekly"⟩ 3 5 = true ∧
    Backup.backup
      ⟨⟨"backups", "myhost", "5432", "mydb", "public", "2016-01-08",
        "weekly"⟩, .one "public", ["public"], false, {}⟩
      ⟨[]⟩ 3 5 12 "myhost" =
      .error (.runtimeError ("Expected daily backup(s) matching " ++
        "backups/myhost.5432.mydb.public.*.daily.pg_dump_Fc")) :=
  @c4_missing_daily_fatal "backups" "mydb" (.one "public") {} ⟨2016, 1, 8⟩
    false "myhost"
    ⟨⟨"backups", "myhost", "5432", "mydb", "public", "2016-01-08",
      "weekly"⟩, .one "public", ["public"], false, {}⟩
    (by decide) ⟨[]⟩ 3 5 12 "myhost" (by decide)
    (2016, 1)
    "backups/myhost.5432.mydb.public.*.weekly.pg_dump_Fc"
    "backups/myhost.5432.mydb.public.*.daily.pg_dump_Fc"
    (by decide) (by decide) (by decide) (Or.inl (by decide)) (by decide)

/-! ## Claim C5: weekly promotion is idempotent within an ISO week -/

theorem pyLeRel_antisymm {a b : String} (h1 : pyLeRel a b)
    (h2 : pyLeRel b a) : a = b := by
  rw [pyLeRel_iff] at h1 h2
  exact le_antisymm h1 h2

/-- The last element of the sorted list is any upper bound present in the
list. -/
theorem sort_files_getLast_max (l : List String) (m : String) (hm : m ∈ l)
    (hmax : ∀ x ∈ l, pyLeRel x m) :
    (sort_files l).getLast? = some m := by
  have hne : sort_files l ≠ [] := by
    intro hnil
    have hperm := sort_files_perm l
    rw [hnil] at hperm
    exact List.not_mem_nil m (hperm.symm.mem_iff.mp hm)
  rw [List.getLast?_eq_getLast _ hne]
  have hg_mem : (sort_files l).getLast hne ∈ l :=
    (sort_files_perm l).mem_iff.mp (List.getLast_mem hne)
  have h1 : pyLeRel ((sort_files l).getLast hne) m := hmax _ hg_mem
  have h2 : pyLeRel m ((sort_files l).getLast hne) :=
    sorted_le_getLast _ (sort_files_sorted l) m
      ((sort_files_perm l).mem_iff.mpr hm) hne
  exact congrArg some (pyLeRel_antisymm h1 h2)

theorem fs_names_append (es : List (String × Nat)) (n : String) (i : Nat) :
    FS.names ⟨es ++ [(n, i)]⟩ = FS.names ⟨es⟩ ++ [n] := by
  simp [FS.names]

/-- After a successful weekly promotion the directory holds today's weekly
file as its greatest weekly-mask match, so a second run decides not to
promote and mutates nothing. -/
theorem weekly_promotion_after_link {b : Backup}
    (hwf : WellFormed b.toBackupFields) (hbt : b.backup_type = "weekly")
    (hs1 : '*' ∉ b.hostname_label.data) (hs2 : '*' ∉ b.port_label.data)
    (hs3 : '*' ∉ b.database_label.data) (hs4 : '*' ∉ b.schema_label.data)
    (fs : FS)
    (hmax : ∀ n ∈ fs.names,
      fnmatchChars (baseFilenameChars (maskedFields b.toBackupFields
        b.backup_type)) n.data = true →
      pyLeRel n (String.mk (baseFilenameChars b.toBackupFields)))
    (i : Nat) {wn : Int × Int}
    (hwn : week_number_of b.toBackupFields.date = .ok wn) :
    do_promotion ⟨fs.entries ++ [(String.mk (baseFilenameChars
        b.toBackupFields), i)]⟩ b.toBackupFields =
      .ok (⟨fs.entries ++ [(String.mk (baseFilenameChars
        b.toBackupFields), i)]⟩, []) := by
  obtain ⟨w1, w2, w3, w4, w5, w6, w7, w8, w9, w10, w11, w12, w13⟩ := hwf
  have hbtv : b.backup_type ∈ BACKUP_TYPES := w12
  have hmW : filename_with_date_masked b.toBackupFields none =
      .ok (String.mk (posixJoinChars b.backup_dir.data
        (baseFilenameChars (maskedFields b.toBackupFields
          b.backup_type)))) :=
    wf_masked_eq b.toBackupFields ⟨w1, w2, w3, w4, w5, w6, w7, w8, w9, w10,
      w11, w12, w13⟩ none (by intro t' ht'; cases ht')
  have hstarW : '/' ∉ (maskedFields b.toBackupFields
      b.backup_type).date.data := by
    show ('/' : Char) ∉ ("*" : String).data
    decide
  have hbtW : '/' ∉ (maskedFields b.toBackupFields
      b.backup_type).backup_type.data :=
    (backup_type_chars b.backup_type hbtv).2.1
  have hmbW : '/' ∉ baseFilenameChars (maskedFields b.toBackupFields
      b.backup_type) :=
    baseFilenameChars_no_slash (maskedFields b.toBackupFields b.backup_type)
      w6 w7 w8 w9 hstarW hbtW
  have hmatch : fnmatchChars (baseFilenameChars (maskedFields
      b.toBackupFields b.backup_type))
      (String.mk (baseFilenameChars b.toBackupFields)).data = true :=
    fnmatch_mask_self b.toBackupFields hs1 hs2 hs3 hs4
      (backup_type_chars b.backup_type hbtv).2.2.1
  have hnames : FS.names ⟨fs.entries ++ [(String.mk (baseFilenameChars
      b.toBackupFields), i)]⟩ =
      fs.names ++ [String.mk (baseFilenameChars b.toBackupFields)] :=
    fs_names_append fs.entries _ i
  have hfilter : (fs.names ++ [String.mk (baseFilenameChars
      b.toBackupFields)]).filter (fun n => fnmatchChars
        (baseFilenameChars (maskedFields b.toBackupFields b.backup_type))
        n.data) =
      fs.names.filter (fun n => fnmatchChars
        (baseFilenameChars (maskedFields b.toBackupFields b.backup_type))
        n.data) ++
      [String.mk (baseFilenameChars b.toBackupFields)] := by
    rw [List.filter_append]
    congr 1
    simp [hmatch]
  have hgetlast : (sort_files (fs.names.filter (fun n => fnmatchChars
      (baseFilenameChars (maskedFields b.toBackupFields b.backup_type))
      n.data) ++
      [String.mk (baseFilenameChars b.toBackupFields)])).getLast? =
      some (String.mk (baseFilenameChars b.toBackupFields)) := by
    apply sort_files_getLast_max
    · simp
    · intro x hx
      rcases List.mem_append.mp hx with hx | hx
      · have hx' := List.mem_filter.mp hx
        exact hmax x hx'.1 hx'.2
      · rw [List.mem_singleton.mp hx]
        exact pyLeRel_refl _
  have hdecompW : sorted_files ⟨fs.entries ++ [(String.mk
      (baseFilenameChars b.toBackupFields), i)]⟩
      (String.mk (posixJoinChars b.backup_dir.data
        (baseFilenameChars (maskedFields b.toBackupFields
          b.backup_type)))) =
      (sort_files ((FS.names ⟨fs.entries ++ [(String.mk (baseFilenameChars
        b.toBackupFields), i)]⟩).filter (fun n => fnmatchChars
          (baseFilenameChars (maskedFields b.toBackupFields b.backup_type))
          n.data))).map
        (fun n => String.mk (posixJoinChars b.backup_dir.data n.data)) :=
    sorted_files_decomp _ b.backup_dir.data _ w13 hmbW
  have hL2 : (sorted_files ⟨fs.entries ++ [(String.mk
      (baseFilenameChars b.toBackupFields), i)]⟩
      (String.mk (posixJoinChars b.backup_dir.data
        (baseFilenameChars (maskedFields b.toBackupFields
          b.backup_type))))).getLast? =
      some (String.mk (posixJoinChars b.backup_dir.data
        (baseFilenameChars b.toBackupFields))) := by
    rw [hdecompW, hnames, hfilter, List.getLast?_map, hgetlast]
    rfl
  have hparse : parseFilename (String.mk (posixJoinChars b.backup_dir.data
      (baseFilenameChars b.toBackupFields))) = .ok b.toBackupFields :=
    wf_parse_encode b.toBackupFields ⟨w1, w2, w3, w4, w5, w6, w7, w8, w9,
      w10, w11, w12, w13⟩
  unfold do_promotion
  rw [if_pos hbt]
  simp only [hwn, hmW, hL2, hparse]
  rw [show (if True then false else true) = false from rfl]
  rw [if_neg (by decide : ¬ false = true)]

/-- `os.link` can only fail when the destination name is already a
directory entry — whichever branch fires, no entry is created. -/
theorem link_to_dst_exists (fs2 : FS) (src dst : String)
    (hmem : String.mk (baseChars dst.data) ∈ fs2.names) :
    ∃ e, fs2.link src dst = .error e := by
  rcases hio : fs2.inodeOf (String.mk (baseChars src.data)) with _ | i
  · exact ⟨.fileNotFoundError src, by simp only [FS.link, hio]⟩
  · refine ⟨.fileExistsError dst, ?_⟩
    simp only [FS.link, hio]
    rw [if_pos hmem]

/-- Once today's weekly file is a directory entry, any further successful
run of the weekly promotion must have mutated nothing and performed no
action: either the newest weekly now carries today's week (a no-op), or a
re-link is attempted and `os.link` fails on the existing destination. -/
theorem do_promotion_after_link {b : Backup}
    (hwf : WellFormed b.toBackupFields) (hbt : b.backup_type = "weekly")
    (fs : FS) (i : Nat) {wn : Int × Int}
    (hwn : week_number_of b.toBackupFields.date = .ok wn) :
    ∀ fs3 tr2,
      do_promotion ⟨fs.entries ++ [(String.mk (baseFilenameChars
        b.toBackupFields), i)]⟩ b.toBackupFields = .ok (fs3, tr2) →
      fs3 = ⟨fs.entries ++ [(String.mk (baseFilenameChars
        b.toBackupFields), i)]⟩ ∧ tr2 = [] := by
  intro fs3 tr2 hrun2
  obtain ⟨w1, w2, w3, w4, w5, w6, w7, w8, w9, w10, w11, w12, w13⟩ := hwf
  have hwf' : WellFormed b.toBackupFields :=
    ⟨w1, w2, w3, w4, w5, w6, w7, w8, w9, w10, w11, w12, w13⟩
  have hmW : filename_with_date_masked b.toBackupFields none =
      .ok (String.mk (posixJoinChars b.backup_dir.data
        (baseFilenameChars (maskedFields b.toBackupFields
          b.backup_type)))) :=
    wf_masked_eq b.toBackupFields hwf' none (by intro t' ht'; cases ht')
  have hmD : filename_with_date_masked b.toBackupFields (some "daily") =
      .ok (String.mk (posixJoinChars b.backup_dir.data
        (baseFilenameChars (maskedFields b.toBackupFields "daily")))) :=
    wf_masked_eq b.toBackupFields hwf' (some "daily")
      (by intro t' ht'; cases ht'; decide)
  have hdst : b.toBackupFields.filename = .ok (String.mk (posixJoinChars
      b.backup_dir.data (baseFilenameChars b.toBackupFields))) :=
    wf_filename_ok b.toBackupFields hwf'
  have hslashbase : '/' ∉ baseFilenameChars b.toBackupFields :=
    baseFilenameChars_no_slash b.toBackupFields w6 w7 w8 w9 w10
      (backup_type_chars b.backup_type w12).2.1
  have hmem2 : String.mk (baseChars (String.mk (posixJoinChars
      b.backup_dir.data (baseFilenameChars b.toBackupFields))).data) ∈
      FS.names ⟨fs.entries ++ [(String.mk (baseFilenameChars
        b.toBackupFields), i)]⟩ := by
    rw [show (String.mk (posixJoinChars b.backup_dir.data
      (baseFilenameChars b.toBackupFields))).data =
      posixJoinChars b.backup_dir.data (baseFilenameChars b.toBackupFields)
      from rfl]
    rw [baseChars_posixJoin _ _ hslashbase, fs_names_append]
    exact List.mem_append.mpr (Or.inr (List.mem_singleton.mpr rfl))
  rcases hL2 : (sorted_files ⟨fs.entries ++ [(String.mk (baseFilenameChars
      b.toBackupFields), i)]⟩ (String.mk (posixJoinChars b.backup_dir.data
        (baseFilenameChars (maskedFields b.toBackupFields
          b.backup_type))))).getLast? with _ | last2
  · rcases hD2 : (sorted_files ⟨fs.entries ++ [(String.mk
        (baseFilenameChars b.toBackupFields), i)]⟩
        (String.mk (posixJoinChars b.backup_dir.data
          (baseFilenameChars (maskedFields b.toBackupFields
            "daily"))))).getLast? with _ | dmax2
    · have hcomp2 : do_promotion ⟨fs.entries ++ [(String.mk
          (baseFilenameChars b.toBackupFields), i)]⟩ b.toBackupFields =
          .error (.runtimeError ("Expected daily backup(s) matching " ++
            String.mk (posixJoinChars b.backup_dir.data
              (baseFilenameChars (maskedFields b.toBackupFields
                "daily"))))) := by
        unfold do_promotion
        rw [if_pos hbt]
        simp only [hwn, hmW, hL2, hmD, hD2]
        rw [if_pos trivial]
      rw [hcomp2] at hrun2
      exact Except.noConfusion hrun2
    · obtain ⟨eL2, hlink2⟩ := link_to_dst_exists
        ⟨fs.entries ++ [(String.mk (baseFilenameChars b.toBackupFields),
          i)]⟩ dmax2
        (String.mk (posixJoinChars b.backup_dir.data
          (baseFilenameChars b.toBackupFields))) hmem2
      have hcomp2 : do_promotion ⟨fs.entries ++ [(String.mk
          (baseFilenameChars b.toBackupFields), i)]⟩ b.toBackupFields =
          .error eL2 := by
        unfold do_promotion
        rw [if_pos hbt]
        simp only [hwn, hmW, hL2, hmD, hD2, hdst, hlink2]
        rw [if_pos trivial]
      rw [hcomp2] at hrun2
      exact Except.noConfusion hrun2
  · rcases hps2 : parseFilename last2 with eP2 | pf2
    · have hcomp2 : do_promotion ⟨fs.entries ++ [(String.mk
          (baseFilenameChars b.toBackupFields), i)]⟩ b.toBackupFields =
          .error eP2 := by
        unfold do_promotion
        rw [if_pos hbt]
        simp only [hwn, hmW, hL2, hps2]
      rw [hcomp2] at hrun2
      exact Except.noConfusion hrun2
    · rcases hlw2 : week_number_of pf2.date with eW2 | lwn2
      · have hcomp2 : do_promotion ⟨fs.entries ++ [(String.mk
            (baseFilenameChars b.toBackupFields), i)]⟩ b.toBackupFields =
            .error eW2 := by
          unfold do_promotion
          rw [if_pos hbt]
          simp only [hwn, hmW, hL2, hps2, hlw2]
        rw [hcomp2] at hrun2
        exact Except.noConfusion hrun2
      · by_cases heqw2 : lwn2 = wn
        · have hcomp2 : do_promotion ⟨fs.entries ++ [(String.mk
              (baseFilenameChars b.toBackupFields), i)]⟩ b.toBackupFields =
              .ok (⟨fs.entries ++ [(String.mk (baseFilenameChars
                b.toBackupFields), i)]⟩, []) := by
            unfold do_promotion
            rw [if_pos hbt]
            simp only [hwn, hmW, hL2, hps2, hlw2, if_pos heqw2]
            rw [if_neg (by decide : ¬ false = true)]
          rw [hcomp2] at hrun2
          injection hrun2 with h
          injection h with hf ht
          exact ⟨hf.symm, ht.symm⟩
        · rcases hD2 : (sorted_files ⟨fs.entries ++ [(String.mk
              (baseFilenameChars b.toBackupFields), i)]⟩
              (String.mk (posixJoinChars b.backup_dir.data
                (baseFilenameChars (maskedFields b.toBackupFields
                  "daily"))))).getLast? with _ | dmax2
          · have hcomp2 : do_promotion ⟨fs.entries ++ [(String.mk
                (baseFilenameChars b.toBackupFields), i)]⟩
                b.toBackupFields =
                .error (.runtimeError ("Expected daily backup(s) matching "
                  ++ String.mk (posixJoinChars b.backup_dir.data
                    (baseFilenameChars (maskedFields b.toBackupFields
                      "daily"))))) := by
              unfold do_promotion
              rw [if_pos hbt]
              simp only [hwn, hmW, hL2, hps2, hlw2, if_neg heqw2, hmD, hD2]
              rw [if_pos trivial]
            rw [hcomp2] at hrun2
            exact Except.noConfusion hrun2
          · obtain ⟨eL2, hlink2⟩ := link_to_dst_exists
              ⟨fs.entries ++ [(String.mk (baseFilenameChars
                b.toBackupFields), i)]⟩ dmax2
              (String.mk (posixJoinChars b.backup_dir.data
                (baseFilenameChars b.toBackupFields))) hmem2
            have hcomp2 : do_promotion ⟨fs.entries ++ [(String.mk
                (baseFilenameChars b.toBackupFields), i)]⟩
                b.toBackupFields = .error eL2 := by
              unfold do_promotion
              rw [if_pos hbt]
              simp only [hwn, hmW, hL2, hps2, hlw2, if_neg heqw2, hmD, hD2,
                hdst, hlink2]
              rw [if_pos trivial]
            rw [hcomp2] at hrun2
            exact Except.noConfusion hrun2

/-- C5: weekly promotion is idempotent within an ISO week.  Whenever the
most recent weekly sibling already carries today's ISO (year, week) —
whatever today's exact date within that week — `do_promotion` returns the
unchanged directory with no actions; and after any successful run, a
further run that succeeds has mutated nothing and performed no action, so
exactly one weekly artifact exists for the week (a rerun either decides
not to promote, or fails on the already-present destination — it never
creates a second artifact). -/
theorem c5_same_week_idempotent {bd db : String} {ss : SchemaSpec}
    {ci : ConnInfo} {t : PyDate} {e : Bool} {g : String} {b : Backup}
    (hok : mkBackup bd "weekly" db ss ci t e g = .ok b)
    (hwf : WellFormed b.toBackupFields) (fs : FS) :
    ∀ wn maskW,
      week_number_of b.date = .ok wn →
      filename_with_date_masked b.toBackupFields none = .ok maskW →
      ((∃ last pf lwn,
          (sorted_files fs maskW).getLast? = some last ∧
          parseFilename last = .ok pf ∧
          week_number_of pf.date = .ok lwn ∧ lwn = wn) →
        do_promotion fs b.toBackupFields = .ok (fs, [])) ∧
      (∀ fs2 tr, do_promotion fs b.toBackupFields = .ok (fs2, tr) →
        ∀ fs3 tr2, do_promotion fs2 b.toBackupFields = .ok (fs3, tr2) →
          fs3 = fs2 ∧ tr2 = []) := by
  intro wn maskW hwn hmW
  have hwf' := hwf
  obtain ⟨w1, w2, w3, w4, w5, w6, w7, w8, w9, w10, w11, w12, w13⟩ := hwf'
  have hbt : b.backup_type = "weekly" := by
    obtain ⟨_, _, _, _, _, _, hbt, _⟩ := mkBackup_ok hok
    exact hbt
  constructor
  · rintro ⟨last, pf, lwn, hlast, hps, hlw, rfl⟩
    unfold do_promotion
    rw [if_pos hbt]
    simp only [hwn, hmW, hlast, hps, hlw]
    rw [show (if True then false else true) = false from rfl]
    rw [if_neg (by decide : ¬ false = true)]
  · intro fs2 tr hrun fs3 tr2 hrun2
    have hmD : filename_with_date_masked b.toBackupFields (some "daily") =
        .ok (String.mk (posixJoinChars b.backup_dir.data
          (baseFilenameChars (maskedFields b.toBackupFields "daily")))) :=
      wf_masked_eq b.toBackupFields hwf (some "daily")
        (by intro t' ht'; cases ht'; decide)
    have hdst : b.toBackupFields.filename = .ok (String.mk (posixJoinChars
        b.backup_dir.data (baseFilenameChars b.toBackupFields))) :=
      wf_filename_ok b.toBackupFields hwf
    have hslashbase : '/' ∉ baseFilenameChars b.toBackupFields :=
      baseFilenameChars_no_slash b.toBackupFields w6 w7 w8 w9 w10
        (backup_type_chars b.backup_type w12).2.1
    have hdstbase : String.mk (baseChars (posixJoinChars
        b.backup_dir.data (baseFilenameChars b.toBackupFields))) =
        String.mk (baseFilenameChars b.toBackupFields) := by
      rw [baseChars_posixJoin _ _ hslashbase]
    rcases hL : (sorted_files fs maskW).getLast? with _ | last
    · rcases hD : (sorted_files fs (String.mk (posixJoinChars
          b.backup_dir.data (baseFilenameChars (maskedFields
            b.toBackupFields "daily"))))).getLast? with _ | dmax
      · have hcomp : do_promotion fs b.toBackupFields = .error
            (.runtimeError ("Expected daily backup(s) matching " ++
              String.mk (posixJoinChars b.backup_dir.data
                (baseFilenameChars (maskedFields b.toBackupFields
                  "daily"))))) := by
          unfold do_promotion
          rw [if_pos hbt]
          simp only [hwn, hmW, hL, hmD, hD]
          rw [if_pos trivial]
        rw [hcomp] at hrun
        exact Except.noConfusion hrun
      · rcases hlink : fs.link dmax (String.mk (posixJoinChars
            b.backup_dir.data (baseFilenameChars b.toBackupFields)))
            with eL | fs2'
        · have hcomp : do_promotion fs b.toBackupFields = .error eL := by
            unfold do_promotion
            rw [if_pos hbt]
            simp only [hwn, hmW, hL, hmD, hD, hdst, hlink]
            rw [if_pos trivial]
          rw [hcomp] at hrun
          exact Except.noConfusion hrun
        · have hcomp : do_promotion fs b.toBackupFields = .ok (fs2',
              [.link dmax (String.mk (posixJoinChars b.backup_dir.data
                (baseFilenameChars b.toBackupFields)))]) := by
            unfold do_promotion
            rw [if_pos hbt]
            simp only [hwn, hmW, hL, hmD, hD, hdst, hlink]
            rw [if_pos trivial]
          rw [hcomp] at hrun
          injection hrun with h
          injection h with hf ht
          subst hf
          simp only [FS.link] at hlink
          rcases hio : fs.inodeOf (String.mk (baseChars dmax.data)) with _ | i
          · simp only [hio] at hlink
            exact Except.noConfusion hlink
          · simp only [hio] at hlink
            by_cases hmem : String.mk (baseChars (posixJoinChars
                b.backup_dir.data (baseFilenameChars
                  b.toBackupFields))) ∈ fs.names
            · rw [if_pos hmem] at hlink
              exact Except.noConfusion hlink
            · rw [if_neg hmem] at hlink
              injection hlink with hfs2'
              subst hfs2'
              rw [hdstbase] at hrun2 ⊢
              exact do_promotion_after_link hwf hbt fs i hwn fs3 tr2 hrun2
    · rcases hps : parseFilename last with eP | pf
      · have hcomp : do_promotion fs b.toBackupFields = .error eP := by
          unfold do_promotion
          rw [if_pos hbt]
          simp only [hwn, hmW, hL, hps]
        rw [hcomp] at hrun
        exact Except.noConfusion hrun
      · rcases hlw : week_number_of pf.date with eW | lwn
        · have hcomp : do_promotion fs b.toBackupFields = .error eW := by
            unfold do_promotion
            rw [if_pos hbt]
            simp only [hwn, hmW, hL, hps, hlw]
          rw [hcomp] at hrun
          exact Except.noConfusion hrun
        · by_cases heqw : lwn = wn
          · have hcomp : do_promotion fs b.toBackupFields = .ok (fs, []) := by
              unfold do_promotion
              rw [if_pos hbt]
              simp only [hwn, hmW, hL, hps, hlw, if_pos heqw]
              rw [if_neg (by decide : ¬ false = true)]
            rw [hcomp] at hrun
            injection hrun with h
            injection h with hf ht
            subst hf
            rw [hcomp] at hrun2
            injection hrun2 with h2
            injection h2 with hf2 ht2
            exact ⟨hf2.symm, ht2.symm⟩
          · rcases hD : (sorted_files fs (String.mk (posixJoinChars
                b.backup_dir.data (baseFilenameChars (maskedFields
                  b.toBackupFields "daily"))))).getLast? with _ | dmax
            · have hcomp : do_promotion fs b.toBackupFields = .error
                  (.runtimeError ("Expected daily backup(s) matching " ++
                    String.mk (posixJoinChars b.backup_dir.data
                      (baseFilenameChars (maskedFields b.toBackupFields
                        "daily"))))) := by
                unfold do_promotion
                rw [if_pos hbt]
                simp only [hwn, hmW, hL, hps, hlw, if_neg heqw, hmD, hD]
                rw [if_pos trivial]
              rw [hcomp] at hrun
              exact Except.noConfusion hrun
            · rcases hlink : fs.link dmax (String.mk (posixJoinChars
                  b.backup_dir.data (baseFilenameChars b.toBackupFields)))
                  with eL | fs2'
              · have hcomp : do_promotion fs b.toBackupFields = .error eL := by
                  unfold do_promotion
                  rw [if_pos hbt]
                  simp only [hwn, hmW, hL, hps, hlw, if_neg heqw, hmD, hD,
                    hdst, hlink]
                  rw [if_pos trivial]
                rw [hcomp] at hrun
                exact Except.noConfusion hrun
              · have hcomp : do_promotion fs b.toBackupFields = .ok (fs2',
                    [.link dmax (String.mk (posixJoinChars b.backup_dir.data
                      (baseFilenameChars b.toBackupFields)))]) := by
                  unfold do_promotion
                  rw [if_pos hbt]
                  simp only [hwn, hmW, hL, hps, hlw, if_neg heqw, hmD, hD,
                    hdst, hlink]
                  rw [if_pos trivial]
                rw [hcomp] at hrun
                injection hrun with h
                injection h with hf ht
                subst hf
                simp only [FS.link] at hlink
                rcases hio : fs.inodeOf (String.mk (baseChars dmax.data))
                    with _ | i
                · simp only [hio] at hlink
                  exact Except.noConfusion hlink
                · simp only [hio] at hlink
                  by_cases hmem : String.mk (baseChars (posixJoinChars
                      b.backup_dir.data (baseFilenameChars
                        b.toBackupFields))) ∈ fs.names
                  · rw [if_pos hmem] at hlink
                    exact Except.noConfusion hlink
                  · rw [if_neg hmem] at hlink
                    injection hlink with hfs2'
                    subst hfs2'
                    rw [hdstbase] at hrun2 ⊢
                    exact do_promotion_after_link hwf hbt fs i hwn fs3 tr2
                      hrun2

/-- C5 witness: a weekly identity dated 2016-01-04 with the directory
already holding the 2016-01-08 weekly (same ISO week 1) is a no-op; and
for a first run that promotes the 2016-01-08 daily into the weekly slot,
the second run on the resulting directory succeeds while — as the theorem
guarantees — mutating nothing and performing no action. -/
theorem c5_witness :
    do_promotion
      ⟨[("myhost.5432.mydb.public.2016-01-08.weekly.pg_dump_Fc", 1)]⟩
      ⟨"backups", "myhost", "5432", "mydb", "public", "2016-01-04",
        "weekly"⟩ =
      .ok (⟨[("myhost.5432.mydb.public.2016-01-08.weekly.pg_dump_Fc", 1)]⟩,
        []) ∧
    do_promotion
      ⟨[("myhost.5432.mydb.public.2016-01-08.daily.pg_dump_Fc", 1)]⟩
      ⟨"backups", "myhost", "5432", "mydb", "public", "2016-01-08",
        "weekly"⟩ =
      .ok (⟨[("myhost.5432.mydb.public.2016-01-08.daily.pg_dump_Fc", 1),
        ("myhost.5432.mydb.public.2016-01-08.weekly.pg_dump_Fc", 1)]⟩,
        [.link "backups/myhost.5432.mydb.public.2016-01-08.daily.pg_dump_Fc"
          "backups/myhost.5432.mydb.public.2016-01-08.weekly.pg_dump_Fc"]) ∧
    do_promotion
      ⟨[("myhost.5432.mydb.public.2016-01-08.daily.pg_dump_Fc", 1),
        ("myhost.5432.mydb.public.2016-01-08.weekly.pg_dump_Fc", 1)]⟩
      ⟨"backups", "myhost", "5432", "mydb", "public", "2016-01-08",
        "weekly"⟩ =
      .ok (⟨[("myhost.5432.mydb.public.2016-01-08.daily.pg_dump_Fc", 1),
        ("myhost.5432.mydb.public.2016-01-08.weekly.pg_dump_Fc", 1)]⟩,
        []) ∧
    (⟨[("myhost.5432.mydb.public.2016-01-08.daily.pg_dump_Fc", 1),
      ("myhost.5432.mydb.public.2016-01-08.weekly.pg_dump_Fc", 1)]⟩ : FS) =
      ⟨[("myhost.5432.mydb.public.2016-01-08.daily.pg_dump_Fc", 1),
        ("myhost.5432.mydb.public.2016-01-08.weekly.pg_dump_Fc", 1)]⟩ ∧
    ([] : List Action) = [] := by
  refine ⟨?_, by decide, by decide, ?_⟩
  · exact (@c5_same_week_idempotent "backups" "mydb" (.one "public") {}
      ⟨2016, 1, 4⟩ false "myhost"
      ⟨⟨"backups", "myhost", "5432", "mydb", "public", "2016-01-04",
        "weekly"⟩, .one "public", ["public"], false, {}⟩
      (by decide) (by decide)
      ⟨[("myhost.5432.mydb.public.2016-01-08.weekly.pg_dump_Fc", 1)]⟩
      (2016, 1) "backups/myhost.5432.mydb.public.*.weekly.pg_dump_Fc"
      (by decide) (by decide)).1
      ⟨"backups/myhost.5432.mydb.public.2016-01-08.weekly.pg_dump_Fc",
       ⟨"backups", "myhost", "5432", "mydb", "public", "2016-01-08",
        "weekly"⟩, (2016, 1), by decide, by decide, by decide, rfl⟩
  · exact (@c5_same_week_idempotent "backups" "mydb" (.one "public") {}
      ⟨2016, 1, 8⟩ false "myhost"
      ⟨⟨"backups", "myhost", "5432", "mydb", "public", "2016-01-08",
        "weekly"⟩, .one "public", ["public"], false, {}⟩
      (by decide) (by decide)
      ⟨[("myhost.5432.mydb.public.2016-01-08.daily.pg_dump_Fc", 1)]⟩
      (2016, 1) "backups/myhost.5432.mydb.public.*.weekly.pg_dump_Fc"
      (by decide) (by decide)).2
      ⟨[("myhost.5432.mydb.public.2016-01-08.daily.pg_dump_Fc", 1),
        ("myhost.5432.mydb.public.2016-01-08.weekly.pg_dump_Fc", 1)]⟩
      [.link "backups/myhost.5432.mydb.public.2016-01-08.daily.pg_dump_Fc"
        "backups/myhost.5432.mydb.public.2016-01-08.weekly.pg_dump_Fc"]
      (by decide)
      ⟨[("myhost.5432.mydb.public.2016-01-08.daily.pg_dump_Fc", 1),
        ("myhost.5432.mydb.public.2016-01-08.weekly.pg_dump_Fc", 1)]⟩
      [] (by decide)

/-! ## Claim C6: filename order is chronological order -/

theorem lexLtB_self : ∀ (l : List Char), lexLtB l l = false
  | [] => rfl
  | c :: cs => by
    show (if c < c then true else if c < c then false else lexLtB cs cs)
      = false
    rw [if_neg (lt_irrefl c), if_neg (lt_irrefl c)]
    exact lexLtB_self cs

theorem lexLtB_cons_same (c : Char) (w x : List Char) :
    lexLtB (c :: w) (c :: x) = lexLtB w x := by
  show (if c < c then true else if c < c then false else lexLtB w x) = _
  rw [if_neg (lt_irrefl c), if_neg (lt_irrefl c)]

/-- Comparing equal-length blocks followed by arbitrary tails: the blocks
decide unless they are equal, in which case the tails decide. -/
theorem lexLtB_append_iff : ∀ (u v w x : List Char), u.length = v.length →
    (lexLtB (u ++ w) (v ++ x) = true ↔
      lexLtB u v = true ∨ (u = v ∧ lexLtB w x = true))
  | [], [], w, x, _ => by
    constructor
    · intro h
      exact Or.inr ⟨rfl, h⟩
    · rintro (h | ⟨_, h⟩)
      · exact absurd h (by decide)
      · exact h
  | [], _ :: _, _, _, hlen => by cases hlen
  | _ :: _, [], _, _, hlen => by cases hlen
  | a :: u', b :: v', w, x, hlen => by
    have hlen' : u'.length = v'.length := by simpa using hlen
    simp only [List.cons_append]
    show (if a < b then true else if b < a then false
        else lexLtB (u' ++ w) (v' ++ x)) = true ↔ _
    by_cases hab : a < b
    · rw [if_pos hab]
      constructor
      · intro _
        left
        show (if a < b then true else if b < a then false else lexLtB u' v')
          = true
        rw [if_pos hab]
      · intro _
        rfl
    · rw [if_neg hab]
      by_cases hba : b < a
      · rw [if_pos hba]
        constructor
        · intro h
          cases h
        · rintro (h | ⟨heq, _⟩)
          · exfalso
            have h' : (if a < b then true else if b < a then false
                else lexLtB u' v') = true := h
            rw [if_neg hab, if_pos hba] at h'
            cases h'
          · exfalso
            injection heq with h1 _
            rw [h1] at hba
            exact lt_irrefl b hba
      · have heq : a = b := le_antisymm (not_lt.mp hba) (not_lt.mp hab)
        subst heq
        rw [if_neg hba]
        rw [lexLtB_append_iff u' v' w x hlen', lexLtB_cons_same]
        simp only [List.cons.injEq, true_and]

/-- The decimal digit characters are ordered like their digits. -/
theorem digitChar_lt_iff : ∀ q1 < 10, ∀ q2 < 10,
    (Nat.digitChar q1 < Nat.digitChar q2 ↔ q1 < q2) := by decide

/-- Splitting a comparison at the leading digit of a base-`P` expansion. -/
theorem div_mod_lt_iff {P a b : Nat} (hP : 0 < P) :
    a < b ↔ (a / P < b / P ∨ (a / P = b / P ∧ a % P < b % P)) := by
  have e1 := Nat.div_add_mod a P
  have e2 := Nat.div_add_mod b P
  have key : ∀ x y : Nat, x / P < y / P → x < y := by
    intro x y h
    have e1' := Nat.div_add_mod x P
    have e2' := Nat.div_add_mod y P
    have m1' := Nat.mod_lt x hP
    have step : P * (x / P) + P ≤ P * (y / P) := by
      have h' : x / P + 1 ≤ y / P := h
      calc P * (x / P) + P = P * (x / P + 1) := by ring
        _ ≤ P * (y / P) := Nat.mul_le_mul_left P h'
    omega
  constructor
  · intro hab
    rcases Nat.lt_trichotomy (a / P) (b / P) with h | h | h
    · exact Or.inl h
    · refine Or.inr ⟨h, ?_⟩
      rw [← h] at e2
      omega
    · exact absurd (key b a h) (by omega)
  · rintro (h | ⟨h, hr⟩)
    · exact key a b h
    · rw [← h] at e2
      omega

/-- Zero-padded fixed-width decimal renderings compare like the numbers. -/
theorem padDigits_lt_iff : ∀ (k a b : Nat), a < 10 ^ k → b < 10 ^ k →
    (lexLtB (padDigits k a) (padDigits k b) = true ↔ a < b)
  | 0, a, b, ha, hb => by
    rw [pow_zero] at ha hb
    refine iff_of_false ?_ (by omega)
    intro h
    simp [padDigits, lexLtB] at h
  | k + 1, a, b, ha, hb => by
    have h10k : 0 < 10 ^ k := pow_pos (by norm_num) k
    have hq1 : a / 10 ^ k < 10 := by
      rw [Nat.div_lt_iff_lt_mul h10k]
      rw [pow_succ] at ha
      omega
    have hq2 : b / 10 ^ k < 10 := by
      rw [Nat.div_lt_iff_lt_mul h10k]
      rw [pow_succ] at hb
      omega
    show (if Nat.digitChar (a / 10 ^ k) < Nat.digitChar (b / 10 ^ k) then
        true
      else if Nat.digitChar (b / 10 ^ k) < Nat.digitChar (a / 10 ^ k) then
        false
      else lexLtB (padDigits k (a % 10 ^ k)) (padDigits k (b % 10 ^ k))) =
        true ↔ a < b
    rw [div_mod_lt_iff h10k]
    rcases Nat.lt_trichotomy (a / 10 ^ k) (b / 10 ^ k) with h | h | h
    · rw [if_pos ((digitChar_lt_iff _ hq1 _ hq2).mpr h)]
      exact iff_of_true rfl (Or.inl h)
    · have hcc : ¬ Nat.digitChar (a / 10 ^ k) <
          Nat.digitChar (b / 10 ^ k) := by
        rw [h]
        exact lt_irrefl _
      have hcc2 : ¬ Nat.digitChar (b / 10 ^ k) <
          Nat.digitChar (a / 10 ^ k) := by
        rw [h]
        exact lt_irrefl _
      rw [if_neg hcc, if_neg hcc2]
      rw [padDigits_lt_iff k (a % 10 ^ k) (b % 10 ^ k)
        (Nat.mod_lt a h10k) (Nat.mod_lt b h10k)]
      constructor
      · intro hr
        exact Or.inr ⟨h, hr⟩
      · rintro (hlt | ⟨_, hr⟩)
        · exact absurd hlt (by omega)
        · exact hr
    · have hcc : ¬ Nat.digitChar (a / 10 ^ k) <
          Nat.digitChar (b / 10 ^ k) := by
        intro hlt
        have := (digitChar_lt_iff _ hq1 _ hq2).mp hlt
        omega
      rw [if_neg hcc, if_pos ((digitChar_lt_iff _ hq2 _ hq1).mpr h)]
      refine iff_of_false (by simp) ?_
      rintro (hlt | ⟨heq, _⟩) <;> omega

theorem padDigits_eq_iff {k a b : Nat} (ha : a < 10 ^ k) (hb : b < 10 ^ k) :
    padDigits k a = padDigits k b ↔ a = b := by
  constructor
  · intro h
    by_contra hne
    rcases Nat.lt_or_ge a b with hl | hge
    · have hx := (padDigits_lt_iff k a b ha hb).mpr hl
      rw [h, lexLtB_self] at hx
      cases hx
    · have hl : b < a := by omega
      have hx := (padDigits_lt_iff k b a hb ha).mpr hl
      rw [h, lexLtB_self] at hx
      cases hx
  · intro h
    rw [h]

/-- The zero-padded `YYYY-MM-DD` rendering compares lexicographically the
way the date triples compare chronologically. -/
theorem lexLtB_fmtDate {y1 m1 d1 y2 m2 d2 : Nat}
    (hy1 : y1 < 10000) (hy2 : y2 < 10000) (hm1 : m1 < 100) (hm2 : m2 < 100)
    (hd1 : d1 < 100) (hd2 : d2 < 100) :
    (lexLtB (fmtDateChars y1 m1 d1) (fmtDateChars y2 m2 d2) = true ↔
      (y1 < y2 ∨ (y1 = y2 ∧ (m1 < m2 ∨ (m1 = m2 ∧ d1 < d2))))) := by
  have hy1' : y1 < 10 ^ 4 := by simpa using hy1
  have hy2' : y2 < 10 ^ 4 := by simpa using hy2
  have hm1' : m1 < 10 ^ 2 := by simpa using hm1
  have hm2' : m2 < 10 ^ 2 := by simpa using hm2
  have hd1' : d1 < 10 ^ 2 := by simpa using hd1
  have hd2' : d2 < 10 ^ 2 := by simpa using hd2
  unfold fmtDateChars
  rw [lexLtB_append_iff _ _ _ _ (by rw [padDigits_length, padDigits_length])]
  rw [lexLtB_cons_same]
  rw [lexLtB_append_iff _ _ _ _ (by rw [padDigits_length, padDigits_length])]
  rw [lexLtB_cons_same]
  rw [padDigits_lt_iff 4 y1 y2 hy1' hy2', padDigits_lt_iff 2 m1 m2 hm1' hm2',
    padDigits_lt_iff 2 d1 d2 hd1' hd2', padDigits_eq_iff hy1' hy2',
    padDigits_eq_iff hm1' hm2']

theorem string_lt_iff_lexLtB (s t : String) :
    s < t ↔ lexLtB s.data t.data = true := by
  rw [String.lt_iff_toList_lt]
  exact ⟨fun h => (lexLtB_iff_lex s.data t.data).mpr h,
    fun h => (lexLtB_iff_lex s.data t.data).mp h⟩

/-- C6: for two identities built from the same inputs except the (valid)
date, the string order of their encoded filenames equals the chronological
order of the dates — zero padding makes lexicographic sorting a date-order
homomorphism. -/
theorem c6_filename_order_is_date_order {bd bt db : String}
    {ss : SchemaSpec} {ci : ConnInfo} {e : Bool} {g : String}
    {t1 t2 : PyDate} {b1 b2 : Backup}
    (hok1 : mkBackup bd bt db ss ci t1 e g = .ok b1)
    (hok2 : mkBackup bd bt db ss ci t2 e g = .ok b2)
    (hv1 : t1.Valid) (hv2 : t2.Valid)
    (hwf1 : WellFormed b1.toBackupFields)
    (hwf2 : WellFormed b2.toBackupFields) :
    ∀ f1 f2,
      b1.toBackupFields.filename = .ok f1 →
      b2.toBackupFields.filename = .ok f2 →
      (f1 < f2 ↔ (t1.year < t2.year ∨ (t1.year = t2.year ∧
        (t1.month < t2.month ∨ (t1.month = t2.month ∧
          t1.day < t2.day))))) := by
  intro f1 f2 hf1 hf2
  obtain ⟨a1, a2, a3, a4, a5, a6, a7, _⟩ := mkBackup_ok hok1
  obtain ⟨c1, c2, c3, c4, c5, c6, c7, _⟩ := mkBackup_ok hok2
  have hdir : b1.backup_dir = b2.backup_dir := by rw [a1, c1]
  have hh : b1.hostname_label = b2.hostname_label := by rw [a2, c2]
  have hp : b1.port_label = b2.port_label := by rw [a3, c3]
  have hdb : b1.database_label = b2.database_label := by rw [a4, c4]
  have hsl : b1.schema_label = b2.schema_label := by
    have := a5.symm.trans c5
    exact (Except.ok.injEq _ _).mp this
  have hbt : b1.backup_type = b2.backup_type := by rw [a7, c7]
  have hfe1 := wf_filename_ok b1.toBackupFields hwf1
  have hfe2 := wf_filename_ok b2.toBackupFields hwf2
  rw [hf1] at hfe1
  rw [hf2] at hfe2
  have hf1' : f1 = String.mk (posixJoinChars b1.backup_dir.data
      (baseFilenameChars b1.toBackupFields)) := (Except.ok.injEq _ _).mp hfe1
  have hf2' : f2 = String.mk (posixJoinChars b2.backup_dir.data
      (baseFilenameChars b2.toBackupFields)) := (Except.ok.injEq _ _).mp hfe2
  rw [hf1', hf2', string_lt_iff_lexLtB]
  obtain ⟨D, hD⟩ := posixJoinChars_exists_prefix b1.backup_dir.data
  rw [show (String.mk (posixJoinChars b1.backup_dir.data
    (baseFilenameChars b1.toBackupFields))).data =
    posixJoinChars b1.backup_dir.data (baseFilenameChars b1.toBackupFields)
    from rfl]
  rw [show (String.mk (posixJoinChars b2.backup_dir.data
    (baseFilenameChars b2.toBackupFields))).data =
    posixJoinChars b2.backup_dir.data (baseFilenameChars b2.toBackupFields)
    from rfl]
  rw [← hdir, hD, hD, lexLtB_append_left]
  show lexLtB (joinSep '.' [b1.hostname_label.data, b1.port_label.data,
      b1.database_label.data, b1.schema_label.data, b1.date.data,
      b1.backup_type.data, (suffixFor b1.backup_type).data])
    (joinSep '.' [b2.hostname_label.data, b2.port_label.data,
      b2.database_label.data, b2.schema_label.data, b2.date.data,
      b2.backup_type.data, (suffixFor b2.backup_type).data]) = true ↔ _
  rw [← hh, ← hp, ← hdb, ← hsl, ← hbt]
  rw [joinSep7_decomp, joinSep7_decomp]
  simp only [List.append_assoc, List.cons_append, List.nil_append]
  rw [lexLtB_append_left, lexLtB_cons_same, lexLtB_append_left,
    lexLtB_cons_same, lexLtB_append_left, lexLtB_cons_same,
    lexLtB_append_left, lexLtB_cons_same]
  have hdt1 : b1.date.data = fmtDateChars t1.year t1.month t1.day := by
    rw [a6]
    rfl
  have hdt2 : b2.date.data = fmtDateChars t2.year t2.month t2.day := by
    rw [c6]
    rfl
  rw [hdt1, hdt2]
  rw [lexLtB_append_iff _ _ _ _ (by
    unfold fmtDateChars
    simp [padDigits_length])]
  obtain ⟨hy1a, hy1b, hm1a, hm1b, hd1a, hd1b⟩ := hv1
  obtain ⟨hy2a, hy2b, hm2a, hm2b, hd2a, hd2b⟩ := hv2
  have h31a := daysInMonth_le_31 t1.year t1.month
  have h31b := daysInMonth_le_31 t2.year t2.month
  rw [lexLtB_fmtDate (by omega) (by omega) (by omega) (by omega)
    (by omega) (by omega)]
  rw [lexLtB_self]
  constructor
  · rintro (h | ⟨_, h⟩)
    · exact h
    · cases h
  · intro h
    exact Or.inl h

/-- C6 witness: the 2016-01-08 daily filename sorts before the 2016-02-01
one exactly because January 8 precedes February 1. -/
theorem c6_witness :
    (("backups/myhost.5432.mydb.public.2016-01-08.daily.pg_dump_Fc" :
        String) <
      "backups/myhost.5432.mydb.public.2016-02-01.daily.pg_dump_Fc" ↔
      (2016 < 2016 ∨ (2016 = 2016 ∧ (1 < 2 ∨ (1 = 2 ∧ 8 < 1))))) :=
  @c6_filename_order_is_date_order "backups" "daily" "mydb" (.one "public")
    {} false "myhost" ⟨2016, 1, 8⟩ ⟨2016, 2, 1⟩
    ⟨⟨"backups", "myhost", "5432", "mydb", "public", "2016-01-08",
      "daily"⟩, .one "public", ["public"], false, {}⟩
    ⟨⟨"backups", "myhost", "5432", "mydb", "public", "2016-02-01",
      "daily"⟩, .one "public", ["public"], false, {}⟩
    (by decide) (by decide) (by decide) (by decide) (by decide) (by decide)
    "backups/myhost.5432.mydb.public.2016-01-08.daily.pg_dump_Fc"
    "backups/myhost.5432.mydb.public.2016-02-01.daily.pg_dump_Fc"
    (by decide) (by decide)

end Pgbackup
